import Mathlib

/-!
Verification development for the SemDomCrowdin repository.

The repository processes XLIFF/XLF localization files.  We embed the
document model (ElementTree-style nodes) and the core logic of
`compare_xlf.py`, `extract_xlf.py`, `comma_lists.py` and
`find_identical_translations.py` as executable Lean definitions over
`List Char` strings, and prove the specification's claims about them.
-/

namespace SemDomCrowdin

/-- Text is modelled as a list of characters (Python `str`). -/
abbrev Str := List Char

/-- The character `\x7b` (opening curly brace). -/
def lbrace : Char := Char.ofNat 123

/-- The character `\x7d` (closing curly brace). -/
def rbrace : Char := Char.ofNat 125

/-- Python `str.strip()`: drop leading and trailing whitespace. -/
def trimStr (s : Str) : Str :=
  ((s.dropWhile Char.isWhitespace).reverse.dropWhile Char.isWhitespace).reverse

/-- Python `s.split(',')` followed by `.strip()` on each piece, as used by
`comma_lists.py` and `find_identical_translations.py`.  Note
`List.splitOn ',' [] = [[]]`, matching Python's `''.split(',') == ['']`. -/
def splitTrim (s : Str) : List Str :=
  (List.splitOn ',' s).map trimStr

/-- Auxiliary for `replaceAll`: while `skip` is positive, drop characters
(the tail of a just-replaced occurrence); at `skip = 0`, emit `rep` at each
leftmost occurrence of `pat` and re-arm the skip counter. -/
def replaceAllAux (pat rep : Str) : Nat → Str → Str
  | _, [] => []
  | Nat.succ n, _ :: cs => replaceAllAux pat rep n cs
  | 0, c :: cs =>
    if pat ≠ [] ∧ pat <+: (c :: cs) then
      rep ++ replaceAllAux pat rep (pat.length - 1) cs
    else
      c :: replaceAllAux pat rep 0 cs

/-- Python `s.replace(pat, rep)`: replace every (leftmost, non-overlapping)
occurrence of `pat` in `s` by `rep`.  Used by `comma_lists.py` for
`unit_id.replace('_Name', '_Abbr')`. -/
def replaceAll (pat rep s : Str) : Str :=
  replaceAllAux pat rep 0 s

/-- An ElementTree node: optional namespace URI, local tag name, attribute
list, optional direct text, ordered children, optional tail text.
ElementTree stores the tag of a namespaced element as the single string
`\x7buri\x7dlocal`; we keep the two parts separate and render them with
`tagStr` below. -/
inductive XNode : Type where
  | node (ns : Option Str) (name : Str) (attrs : List (Str × Str))
      (text : Option Str) (children : List XNode) (tail : Option Str)

def XNode.ns : XNode → Option Str
  | .node n _ _ _ _ _ => n

def XNode.name : XNode → Str
  | .node _ n _ _ _ _ => n

def XNode.attrs : XNode → List (Str × Str)
  | .node _ _ a _ _ _ => a

def XNode.text : XNode → Option Str
  | .node _ _ _ t _ _ => t

def XNode.children : XNode → List XNode
  | .node _ _ _ _ ch _ => ch

def XNode.tail : XNode → Option Str
  | .node _ _ _ _ _ tl => tl

/-- The ElementTree `element.tag` string: `\x7buri\x7dname` for a namespaced
element, plain `name` otherwise. -/
def tagStr (x : XNode) : Str :=
  match x.ns with
  | some u => lbrace :: (u ++ rbrace :: x.name)
  | none => x.name

/-- The qualified-tag string ElementTree compares against when a path like
`xliff:tag` is resolved through a namespace map: `\x7buri\x7dtag`. -/
def qname (uri t : Str) : Str :=
  lbrace :: (uri ++ rbrace :: t)

/-- First-match lookup in an attribute list (ElementTree attributes are a
dict; keys are unique). -/
def alookup : List (Str × Str) → Str → Option Str
  | [], _ => none
  | (k, v) :: r, a => if k = a then some v else alookup r a

/-- Python `element.get(key)`. -/
def attrGet (x : XNode) (k : Str) : Option Str :=
  alookup x.attrs k

/-- Python `element.get(key, default)`. -/
def attrGetD (x : XNode) (k d : Str) : Str :=
  (attrGet x k).getD d

mutual
/-- All proper descendants of a node in document (preorder) order, as
enumerated by an ElementTree `.//` path. -/
def descendants : XNode → List XNode
  | .node _ _ _ _ ch _ => descendantsList ch

def descendantsList : List XNode → List XNode
  | [] => []
  | c :: cs => c :: (descendants c ++ descendantsList cs)
end

mutual
/-- Python `element.itertext()`, concatenated: the element's text, then for
each child its `itertext` followed by the child's tail. -/
def itertext : XNode → Str
  | .node _ _ _ t ch _ => t.getD [] ++ itertextList ch

def itertextList : List XNode → Str
  | [] => []
  | c :: cs => (itertext c ++ c.tail.getD []) ++ itertextList cs
end

/-- `extract_text` from `compare_xlf.py` / `extract_xlf.py` /
`comma_lists.py`: empty for a missing element, otherwise the joined
`itertext`, stripped. -/
def extract_text : Option XNode → Str
  | none => []
  | some e => trimStr (itertext e)

/-- `root.findall('.//<tag>')`: all descendants satisfying the tag
predicate, in document order. -/
def findallDesc (p : XNode → Bool) (x : XNode) : List XNode :=
  (descendants x).filter p

/-- `element.find('<tag>')`: the first direct child satisfying the tag
predicate. -/
def findChild (p : XNode → Bool) (x : XNode) : Option XNode :=
  x.children.find? p

/-- The tag predicate used for `findall`/`find`: with a namespace the path
`xliff:t` matches tag string `\x7buri\x7dt` exactly, without one the path
`t` matches tag string `t` exactly. -/
def tagIs (useNamespace : Bool) (uri t : Str) (c : XNode) : Bool :=
  if useNamespace then decide (tagStr c = qname uri t) else decide (tagStr c = t)

/-- `root.tag.startswith('\x7b')`: the scripts' namespace detection. -/
def usesNamespace (root : XNode) : Bool :=
  match tagStr root with
  | [] => false
  | c :: _ => c == lbrace

/-- `root.tag[1:root.tag.index('\x7d')]`: the namespace URI extracted from
the root tag (the scripts only evaluate this when the tag starts with an
opening brace, in which case a closing brace is present). -/
def nsUriOf (root : XNode) : Str :=
  ((tagStr root).drop 1).takeWhile (fun c => !(c == rbrace))

/-! ## compare_xlf.py -/

/-- The per-group record built by `parse_xlf_file` (all fields initialised
to the empty string). -/
structure GroupData where
  abbr : Str
  name_source : Str
  name_target : Str
  name_target_state : Str
  desc_source : Str
  desc_target : Str
  desc_target_state : Str
deriving DecidableEq

def emptyGroupData : GroupData :=
  ⟨[], [], [], [], [], [], []⟩

/-- `trans_unit.find('source')` (namespace-aware). -/
def findSource (useNamespace : Bool) (uri : Str) (tu : XNode) : Option XNode :=
  findChild (tagIs useNamespace uri ("source".data)) tu

/-- `trans_unit.find('target')` (namespace-aware). -/
def findTarget (useNamespace : Bool) (uri : Str) (tu : XNode) : Option XNode :=
  findChild (tagIs useNamespace uri ("target".data)) tu

/-- `target_elem.get('state', '') if target_elem is not None else ''`. -/
def targetState (tgt : Option XNode) : Str :=
  match tgt with
  | some t => attrGetD t ("state".data) []
  | none => []

/-- One direct child's contribution to a group's effective trans-units
(`compare_xlf.py` lines 76-92, identically `extract_xlf.py` lines 135-151):
a direct group child whose id contains `_SubPos` is skipped; a trans-unit
child is taken directly; any other group child contributes all its
descendant trans-units. -/
def effectiveUnitsOfChild (useNamespace : Bool) (uri : Str) (child : XNode) : List XNode :=
  let child_id := attrGetD child ("id".data) []
  if "group".data <:+ tagStr child ∧ "_SubPos".data <:+: child_id then
    []
  else if "trans-unit".data <:+ tagStr child then
    [child]
  else if "group".data <:+ tagStr child then
    findallDesc (tagIs useNamespace uri ("trans-unit".data)) child
  else
    []

/-- The full effective trans-unit list of a group's children, in encounter
order. -/
def collectTransUnits (useNamespace : Bool) (uri : Str) (children : List XNode) : List XNode :=
  children.flatMap (effectiveUnitsOfChild useNamespace uri)

/-- One trans-unit's update of the group record (`compare_xlf.py` lines
105-139): dispatch on the id suffix `_Abbr` / `_Name` / `_Desc_0`, treating
a target whose state is `needs-translation` as empty text. -/
def updateUnit (useNamespace : Bool) (uri : Str) (gd : GroupData) (tu : XNode) : GroupData :=
  let unit_id := attrGetD tu ("id".data) []
  let source_elem := findSource useNamespace uri tu
  let target_elem := findTarget useNamespace uri tu
  if "_Abbr".data <:+ unit_id then
    { gd with abbr := extract_text source_elem }
  else if "_Name".data <:+ unit_id then
    let st := targetState target_elem
    { gd with
      name_source := extract_text source_elem
      name_target_state := st
      name_target := if st = "needs-translation".data then [] else extract_text target_elem }
  else if "_Desc_0".data <:+ unit_id then
    let st := targetState target_elem
    { gd with
      desc_source := extract_text source_elem
      desc_target_state := st
      desc_target := if st = "needs-translation".data then [] else extract_text target_elem }
  else
    gd

/-- A group qualifies as a semantic-domain group when some direct child's
tag contains `guid`. -/
def hasGuidChild (g : XNode) : Bool :=
  g.children.any (fun c => decide ("guid".data <:+: tagStr c))

/-- Resolve one group's fields by folding `updateUnit` over its effective
trans-units (later units overwrite earlier ones). -/
def resolveGroup (useNamespace : Bool) (uri : Str) (g : XNode) : GroupData :=
  (collectTransUnits useNamespace uri g.children).foldl (updateUnit useNamespace uri) emptyGroupData

/-- All descendant `group` elements that have a guid-marked child, in
document order. -/
def targetGroupsOf (root : XNode) : List XNode :=
  (findallDesc (tagIs (usesNamespace root) (nsUriOf root) ("group".data)) root).filter hasGuidChild

/-- `parse_xlf_file` (post-parse part): the data dictionary, represented as
the append-ordered association list of `(group id, resolved fields)`, and
the group-id order list. -/
def parse_xlf_file (root : XNode) : List (Str × GroupData) × List Str :=
  let u := usesNamespace root
  let uri := nsUriOf root
  (targetGroupsOf root).foldl
    (fun acc g =>
      let group_id := attrGetD g ("id".data) []
      (acc.1 ++ [(group_id, resolveGroup u uri g)], acc.2 ++ [group_id]))
    ([], [])

/-- Dictionary lookup over the association list: the LAST binding wins,
matching Python dict assignment `data[group_id] = group_data`. -/
def dlookup (m : List (Str × GroupData)) (k : Str) : Option GroupData :=
  m.foldl (fun r p => if p.1 = k then some p.2 else r) none

/-- `parse_xlf_file` including the fallible top-level parse (the script
exits if `ET.parse` fails; we model the abort as error propagation). -/
def parse_xlf_file_run (parsed : Except Str XNode) :
    Except Str (List (Str × GroupData) × List Str) :=
  match parsed with
  | .error e => .error e
  | .ok root => .ok (parse_xlf_file root)

/-- The `-n` / `-d` comparison mode of `compare_xlf.py`. -/
inductive CompareType
  | name
  | description
deriving DecidableEq

/-- The tracked target content of the chosen field. -/
def contentOf (ty : CompareType) (d : GroupData) : Str :=
  match ty with
  | .name => d.name_target
  | .description => d.desc_target

/-- The tracked target state of the chosen field. -/
def stateOf (ty : CompareType) (d : GroupData) : Str :=
  match ty with
  | .name => d.name_target_state
  | .description => d.desc_target_state

/-- The change predicate: `content_changed or state_changed`, where
`state_changed` is only evaluated when `include_state` is set. -/
def changedPred (ty : CompareType) (includeState : Bool) (d1 d2 : GroupData) : Bool :=
  decide (contentOf ty d1 ≠ contentOf ty d2) ||
    (includeState && decide (stateOf ty d1 ≠ stateOf ty d2))

/-- One emitted change row (`change_data` in `compare_files`); the
`desc_source` key exists only in description mode and the state keys only
when `include_state` is set, modelled by `Option`. -/
structure Change where
  abbr : Str
  name_source : Str
  desc_source : Option Str
  content_before : Str
  content_after : Str
  state_before : Option Str
  state_after : Option Str
deriving DecidableEq

/-- Build the change row for one group from the older fields `d1` and newer
fields `d2`. -/
def mkChange (ty : CompareType) (includeState : Bool) (d1 d2 : GroupData) : Change :=
  { abbr := d2.abbr
    name_source := d2.name_source
    desc_source := match ty with | .name => none | .description => some d2.desc_source
    content_before := contentOf ty d1
    content_after := contentOf ty d2
    state_before := if includeState then some (stateOf ty d1) else none
    state_after := if includeState then some (stateOf ty d2) else none }

/-- The loop body of `compare_files` for one id of the newer order: skip
ids not present in both data dictionaries, append a change row when the
change predicate holds. -/
def compareStep (ty : CompareType) (includeState : Bool)
    (data1 data2 : List (Str × GroupData)) (changes : List Change) (group_id : Str) :
    List Change :=
  if (dlookup data1 group_id).isSome ∧ (dlookup data2 group_id).isSome then
    let d1 := (dlookup data1 group_id).getD emptyGroupData
    let d2 := (dlookup data2 group_id).getD emptyGroupData
    if changedPred ty includeState d1 d2 then changes ++ [mkChange ty includeState d1 d2]
    else changes
  else changes

/-- The diff loop of `compare_files` (lines 174-219): iterate the newer
file's group order. -/
def compare_files (ty : CompareType) (includeState : Bool)
    (data1 data2 : List (Str × GroupData)) (order2 : List Str) : List Change :=
  order2.foldl (compareStep ty includeState data1 data2) []

/-- Whether an id of the newer order contributes a change row. -/
def diffPred (ty : CompareType) (includeState : Bool)
    (data1 data2 : List (Str × GroupData)) (g : Str) : Bool :=
  (dlookup data1 g).isSome && (dlookup data2 g).isSome &&
    changedPred ty includeState ((dlookup data1 g).getD emptyGroupData)
      ((dlookup data2 g).getD emptyGroupData)

/-- The ids contributing a change row, in output order. -/
def diffIds (ty : CompareType) (includeState : Bool)
    (data1 data2 : List (Str × GroupData)) (order2 : List Str) : List Str :=
  order2.filter (diffPred ty includeState data1 data2)

/-! ## extract_xlf.py -/

/-- The five extraction modes of `extract_xlf.py`. -/
inductive PatternType
  | name
  | name_with_desc
  | description
  | description_with_name
  | question
deriving DecidableEq

/-- `re.search(r'_Qs_\d+_Q$', s)`: true when `s` ends in `_Qs_<digits>_Q`
with at least one (ASCII) digit. -/
def matchQsQ (s : Str) : Bool :=
  match s.reverse with
  | 'Q' :: '_' :: rest =>
      let digits := rest.takeWhile Char.isDigit
      decide (digits ≠ []) && decide ("_Qs_".data.reverse <+: rest.drop digits.length)
  | _ => false

/-- The main id pattern of each mode (a `$`-anchored `re.search`, i.e. a
suffix test). -/
def patMatches : PatternType → Str → Bool
  | .name, s => decide ("_Name".data <:+ s)
  | .name_with_desc, s => decide ("_Name".data <:+ s)
  | .description, s => decide ("_Desc_0".data <:+ s)
  | .description_with_name, s => decide ("_Desc_0".data <:+ s)
  | .question, s => matchQsQ s

/-- The extra-column pattern (`include_extra` / `extra_pattern`). -/
def extraPatMatches : PatternType → Option (Str → Bool)
  | .name_with_desc => some (fun s => decide ("_Desc_0".data <:+ s))
  | .description_with_name => some (fun s => decide ("_Name".data <:+ s))
  | _ => none

/-- `extract_xlf.py` lines 123-133: find the first direct trans-unit child
whose id ends in `_Abbr` and take its source text (empty otherwise). -/
def abbrOfGroup (useNamespace : Bool) (uri : Str) (g : XNode) : Str :=
  match g.children.find?
      (fun child =>
        decide ("trans-unit".data <:+ tagStr child) &&
          decide ("_Abbr".data <:+ attrGetD child ("id".data) [])) with
  | some child => extract_text (findSource useNamespace uri child)
  | none => []

/-- The mutable scan state of the trans-unit loop in `extract_data`. -/
structure ExtractScan where
  found : Bool
  source_text : Str
  target_text : Str
  extra_source_text : Str
deriving DecidableEq

/-- One trans-unit's effect on the scan state (`extract_xlf.py` lines
159-180): the last id-pattern match wins for source/target, and likewise
for the extra column. -/
def scanUnit (useNamespace : Bool) (uri : Str) (pt : PatternType)
    (st : ExtractScan) (tu : XNode) : ExtractScan :=
  let unit_id := attrGetD tu ("id".data) []
  let st1 :=
    if patMatches pt unit_id then
      { st with
        source_text := extract_text (findSource useNamespace uri tu)
        target_text := extract_text (findTarget useNamespace uri tu)
        found := true }
    else st
  match extraPatMatches pt with
  | some ep =>
      if ep unit_id then
        { st1 with extra_source_text := extract_text (findSource useNamespace uri tu) }
      else st1
  | none => st1

/-- The output tuple for one group (`extract_xlf.py` lines 182-190). -/
def extractRow (pt : PatternType) (abbr_text : Str) (sc : ExtractScan) : List Str :=
  match extraPatMatches pt with
  | some _ =>
      if pt = .description_with_name then
        [abbr_text, sc.extra_source_text, sc.source_text, sc.target_text]
      else
        [abbr_text, sc.source_text, sc.target_text, sc.extra_source_text]
  | none => [abbr_text, sc.source_text, sc.target_text]

/-- The scan result of one group's effective trans-units. -/
def scanGroup (useNamespace : Bool) (uri : Str) (pt : PatternType) (g : XNode) : ExtractScan :=
  (collectTransUnits useNamespace uri g.children).foldl (scanUnit useNamespace uri pt)
    ⟨false, [], [], []⟩

/-- The loop body of `extract_data` for one qualifying group: either one
output row (when a unit matched the id pattern) or an increment of the
missing-group counter. -/
def extractStep (useNamespace : Bool) (uri : Str) (pt : PatternType)
    (acc : List (List Str) × Nat) (g : XNode) : List (List Str) × Nat :=
  let abbr_text := abbrOfGroup useNamespace uri g
  let sc := scanGroup useNamespace uri pt g
  if sc.found then (acc.1 ++ [extractRow pt abbr_text sc], acc.2)
  else (acc.1, acc.2 + 1)

/-- `extract_data` (post-parse part): fold the per-group step over the
qualifying groups. -/
def extract_data (pt : PatternType) (root : XNode) : List (List Str) × Nat :=
  let u := usesNamespace root
  let uri := nsUriOf root
  (targetGroupsOf root).foldl (extractStep u uri pt) ([], 0)

/-- `extract_data` including the fallible top-level parse (the script exits
on a parse error; modelled as error propagation). -/
def extract_data_run (pt : PatternType) (parsed : Except Str XNode) :
    Except Str (List (List Str) × Nat) :=
  match parsed with
  | .error e => .error e
  | .ok root => .ok (extract_data pt root)

/-! ## comma_lists.py -/

/-- One result row of `comma_lists.py`. -/
structure CLResult where
  abbr_source : Str
  name_source : Str
  name_target : Str
  target_state : Str
  source_count : Nat
  target_count : Nat
deriving DecidableEq

/-- `trans_unit.get('resname', '') or trans_unit.get('id', '')`: the
resname when nonempty, the id otherwise. -/
def unitIdOf (tu : XNode) : Str :=
  let r := attrGetD tu ("resname".data) []
  if r = [] then attrGetD tu ("id".data) [] else r

/-- `comma_lists.py` lines 92-101: the source text of the first trans-unit
whose identifier equals `abbr_id` (empty when none matches). -/
def abbrSourceFor (useNamespace : Bool) (uri : Str)
    (all_trans_units : List XNode) (abbr_id : Str) : Str :=
  match all_trans_units.find? (fun tu => decide (unitIdOf tu = abbr_id)) with
  | some tu => extract_text (findSource useNamespace uri tu)
  | none => []

/-- The result row built for one mismatching `_Name` unit. -/
def mkCLResult (useNamespace : Bool) (uri : Str) (all_trans_units : List XNode)
    (tu : XNode) : CLResult :=
  let unit_id := unitIdOf tu
  let source_text := extract_text (findSource useNamespace uri tu)
  let target_text := extract_text (findTarget useNamespace uri tu)
  { abbr_source :=
      abbrSourceFor useNamespace uri all_trans_units
        (replaceAll ("_Name".data) ("_Abbr".data) unit_id)
    name_source := source_text
    name_target := target_text
    target_state := targetState (findTarget useNamespace uri tu)
    source_count := (splitTrim source_text).length
    target_count := (splitTrim target_text).length }

/-- The loop body of `comma_lists` for one trans-unit: only `_Name` units
with differing piece counts produce a record, bucketed by direction. -/
def clStep (useNamespace : Bool) (uri : Str) (all_trans_units : List XNode)
    (acc : List CLResult × List CLResult) (tu : XNode) : List CLResult × List CLResult :=
  if "_Name".data <:+ unitIdOf tu then
    let source_parts := splitTrim (extract_text (findSource useNamespace uri tu))
    let target_parts := splitTrim (extract_text (findTarget useNamespace uri tu))
    if source_parts.length ≠ target_parts.length then
      let result := mkCLResult useNamespace uri all_trans_units tu
      if target_parts.length > source_parts.length then (acc.1 ++ [result], acc.2)
      else (acc.1, acc.2 ++ [result])
    else acc
  else acc

/-- `comma_lists` (post-parse part): the `(increased, decreased)` result
buckets, each in encounter order. -/
def comma_lists (root : XNode) : List CLResult × List CLResult :=
  let u := usesNamespace root
  let uri := nsUriOf root
  let all_trans_units := findallDesc (tagIs u uri ("trans-unit".data)) root
  all_trans_units.foldl (clStep u uri all_trans_units) ([], [])

/-- The full trans-unit list `comma_lists` scans, in document order. -/
def clAllUnits (root : XNode) : List XNode :=
  findallDesc (tagIs (usesNamespace root) (nsUriOf root) ("trans-unit".data)) root

/-- A `_Name` unit whose target has MORE comma pieces than its source. -/
def clIncreasedPred (useNamespace : Bool) (uri : Str) (tu : XNode) : Bool :=
  decide ("_Name".data <:+ unitIdOf tu) &&
    decide ((splitTrim (extract_text (findTarget useNamespace uri tu))).length >
      (splitTrim (extract_text (findSource useNamespace uri tu))).length)

/-- A `_Name` unit whose target has FEWER comma pieces than its source. -/
def clDecreasedPred (useNamespace : Bool) (uri : Str) (tu : XNode) : Bool :=
  decide ("_Name".data <:+ unitIdOf tu) &&
    decide ((splitTrim (extract_text (findTarget useNamespace uri tu))).length <
      (splitTrim (extract_text (findSource useNamespace uri tu))).length)

/-! ## find_identical_translations.py -/

/-- The namespace URI hardcoded by `find_identical_translations.py`. -/
def xliff12 : Str := "urn:oasis:names:tc:xliff:document:1.2".data

/-- One result of `find_identical_translations`. -/
structure IdentResult where
  id : Str
  resname : Str
  source : Str
  target : Str
  matching_pieces : List Str
  type : Str
deriving DecidableEq

/-- Python `element.text if element.text else ''` (direct text only, not
`itertext`). -/
def nodeTextOf (e : XNode) : Str := e.text.getD []

def identType1 : Str := "approved (comma-split)".data

def identType2 : Str := "approved + translate=no (identical)".data

def identType3 : Str := "not approved (identical)".data

/-- The per-unit logic of `find_identical_translations` (lines 30-99):
skip `_Abbr` resnames, units missing source or target, and
`needs-translation` targets; then apply the four-way
approved/translate rule table. -/
def processUnit (tu : XNode) : Option IdentResult :=
  let approved_attr := attrGet tu ("approved".data)
  let translate_attr := attrGet tu ("translate".data)
  let resname := attrGetD tu ("resname".data) []
  if "_Abbr".data <:+ resname then none
  else
    match findChild (tagIs true xliff12 ("source".data)) tu,
        findChild (tagIs true xliff12 ("target".data)) tu with
    | some source, some target =>
        if attrGet target ("state".data) = some ("needs-translation".data) then none
        else
          let source_text := nodeTextOf source
          let target_text := nodeTextOf target
          let trans_unit_id := attrGetD tu ("id".data) ("N/A".data)
          if approved_attr = some ("yes".data) ∧ translate_attr ≠ some ("no".data) then
            let target_pieces := splitTrim target_text
            let matching_pieces :=
              target_pieces.filter (fun piece => decide (piece ≠ []) && decide (piece <:+: source_text))
            if matching_pieces ≠ [] then
              some { id := trans_unit_id, resname := resname, source := source_text,
                     target := target_text, matching_pieces := matching_pieces,
                     type := identType1 }
            else none
          else if approved_attr = some ("yes".data) ∧ translate_attr = some ("no".data) then
            if source_text = target_text then
              some { id := trans_unit_id, resname := resname, source := source_text,
                     target := target_text, matching_pieces := [source_text],
                     type := identType2 }
            else none
          else if approved_attr ≠ some ("yes".data) ∧ translate_attr ≠ some ("no".data) then
            if source_text = target_text then
              some { id := trans_unit_id, resname := resname, source := source_text,
                     target := target_text, matching_pieces := [source_text],
                     type := identType3 }
            else none
          else none
    | _, _ => none

/-- `find_identical_translations`: the hardcoded-namespace descendant
search followed by the per-unit rule table, in document order. -/
def find_identical_translations (root : XNode) : List IdentResult :=
  (findallDesc (tagIs true xliff12 ("trans-unit".data)) root).filterMap processUnit

/-- `type_order.get(x['type'], 4)` from `main`. -/
def typeOrderOf (t : Str) : Nat :=
  if t = identType1 then 1 else if t = identType2 then 2 else if t = identType3 then 3 else 4

/-- `results.sort(key=lambda x: type_order.get(x['type'], 4))`: Python's
sort is stable; insertion sort on `≤` of the keys is the stable sort. -/
def sortResults (rs : List IdentResult) : List IdentResult :=
  List.insertionSort (fun a b => typeOrderOf a.type ≤ typeOrderOf b.type) rs

/-! ## Namespace application (for the namespace-tolerance claim) -/

mutual
/-- Requalify every element of a document into namespace `u` (the
namespaced rendition of a plain document). -/
def applyNs (u : Str) : XNode → XNode
  | .node _ n a t ch tl => .node (some u) n a t (applyNsList u ch) tl

def applyNsList (u : Str) : List XNode → List XNode
  | [] => []
  | c :: cs => applyNs u c :: applyNsList u cs
end

mutual
/-- A document with no namespace declaration: every element has no
namespace part and no tag name starting with an opening brace. -/
def plainNode : XNode → Bool
  | .node ns n _ _ ch _ =>
      ns.isNone && (match n with | [] => true | c :: _ => !(c == lbrace)) && plainList ch

def plainList : List XNode → Bool
  | [] => true
  | c :: cs => plainNode c && plainList cs
end

/-! ## Concrete fixtures used by witnesses -/

/-- An older-snapshot record for the demo group. -/
def demoOld : GroupData :=
  { abbr := "1.1".data, name_source := "Sky".data, name_target := "Ceu".data,
    name_target_state := "translated".data, desc_source := "About the sky.".data,
    desc_target := "Sobre".data, desc_target_state := "translated".data }

/-- A newer-snapshot record for the demo group. -/
def demoNew : GroupData :=
  { abbr := "1.1b".data, name_source := "Sky2".data, name_target := "Ceu2".data,
    name_target_state := "final".data, desc_source := "About.".data,
    desc_target := "Sobre2".data, desc_target_state := "final".data }

def demoData1 : List (Str × GroupData) := [("g1".data, demoOld), ("gOnly1".data, demoOld)]

def demoData2 : List (Str × GroupData) := [("g1".data, demoNew), ("gOnly2".data, demoNew)]

def demoOrder2 : List Str := ["gOnly2".data, "g1".data]

/-- A source element in the XLIFF 1.2 namespace with text
`red, green, blue`. -/
def identSrcEl : XNode :=
  XNode.node (some xliff12) ("source".data) [] (some ("red, green, blue".data)) [] none

/-- A target element in the XLIFF 1.2 namespace with text
`vermelho, green`. -/
def identTgtEl : XNode :=
  XNode.node (some xliff12) ("target".data) [] (some ("vermelho, green".data)) [] none

/-- An approved, not translate-suppressed trans-unit (the spec's comma-split
example). -/
def identTU : XNode :=
  XNode.node (some xliff12) ("trans-unit".data)
    [("id".data, "42".data), ("resname".data, "d_Name".data), ("approved".data, "yes".data)]
    none [identSrcEl, identTgtEl] none

/-- A trans-unit whose resname ends in `_Abbr`. -/
def identAbbrTU : XNode :=
  XNode.node (some xliff12) ("trans-unit".data)
    [("id".data, "7".data), ("resname".data, "d_Abbr".data), ("approved".data, "yes".data)]
    none [identSrcEl, identTgtEl] none

/-- A target element carrying `state="needs-translation"`. -/
def identNtTgtEl : XNode :=
  XNode.node (some xliff12) ("target".data) [("state".data, "needs-translation".data)]
    (some ("red, green, blue".data)) [] none

/-- A trans-unit whose target state is `needs-translation`. -/
def identNtTU : XNode :=
  XNode.node (some xliff12) ("trans-unit".data)
    [("id".data, "8".data), ("resname".data, "d2_Name".data), ("approved".data, "yes".data)]
    none [identSrcEl, identNtTgtEl] none

/-- A document holding the identical-translation fixtures, in the XLIFF 1.2
namespace. -/
def identDoc : XNode :=
  XNode.node (some xliff12) ("xliff".data) [] none [identTU, identAbbrTU, identNtTU] none

/-- A `_Name` trans-unit with a one-piece source, a two-piece stored target
text, and target state `needs-translation` (no namespace). -/
def clNtTU : XNode :=
  XNode.node none ("trans-unit".data) [("id".data, "d2_Name".data)] none
    [XNode.node none ("source".data) [] (some ("x".data)) [] none,
     XNode.node none ("target".data) [("state".data, "needs-translation".data)]
       (some ("a, b".data)) [] none] none

/-- A document holding only `clNtTU`. -/
def clNtDoc : XNode :=
  XNode.node none ("xliff".data) [] none [clNtTU] none

/-- A guid-marker child (domain-identity marker). -/
def grpGuidEl : XNode :=
  XNode.node none ("sil:guid".data) [] (some ("xyz".data)) [] none

/-- A `_Name` trans-unit whose target carries state `needs-translation`
with stored (non-empty) text. -/
def ntNameTU : XNode :=
  XNode.node none ("trans-unit".data) [("id".data, "d9_Name".data)] none
    [XNode.node none ("source".data) [] (some ("Sky".data)) [] none,
     XNode.node none ("target".data) [("state".data, "needs-translation".data)]
       (some ("Stored".data)) [] none] none

/-- A semantic-domain group (guid-marked) holding `ntNameTU`. -/
def ntGroup : XNode :=
  XNode.node none ("group".data) [("id".data, "G9".data)] none [grpGuidEl, ntNameTU] none

/-- A document holding only `ntGroup`. -/
def ntParseDoc : XNode :=
  XNode.node none ("xliff".data) [] none [ntGroup] none

/-- A trans-unit whose id ends in `_Abbr` only. -/
def abbrOnlyTU : XNode :=
  XNode.node none ("trans-unit".data) [("id".data, "d9_Abbr".data)] none
    [XNode.node none ("source".data) [] (some ("9".data)) [] none] none

/-- A guid-marked group containing no `_Name` unit at all. -/
def abbrOnlyGroup : XNode :=
  XNode.node none ("group".data) [("id".data, "G10".data)] none [grpGuidEl, abbrOnlyTU] none

/-- The same trans-unit as `identTU` but with no namespace declaration. -/
def identTUPlain : XNode :=
  XNode.node none ("trans-unit".data)
    [("id".data, "42".data), ("resname".data, "d_Name".data), ("approved".data, "yes".data)]
    none
    [XNode.node none ("source".data) [] (some ("red, green, blue".data)) [] none,
     XNode.node none ("target".data) [] (some ("vermelho, green".data)) [] none] none

/-- The same document as `identDoc` but with no namespace declaration. -/
def identDocPlain : XNode :=
  XNode.node none ("xliff".data) [] none [identTUPlain] none

/-- `identDoc` restricted to its comma-split unit (for the C8
counterexample: same content as `identDocPlain`, namespaced). -/
def identDocNs : XNode :=
  XNode.node (some xliff12) ("xliff".data) [] none [identTU] none

/-! ## General helper lemmas -/

theorem dlookup_foldl {v : GroupData} (m : List (Str × GroupData)) (k : Str)
    (r : Option GroupData)
    (h : m.foldl (fun r p => if p.1 = k then some p.2 else r) r = some v) :
    (k, v) ∈ m ∨ r = some v := by
  induction m generalizing r with
  | nil => exact Or.inr h
  | cons p ps ih =>
    rcases ih _ h with hmem | hr
    · exact Or.inl (List.mem_cons_of_mem _ hmem)
    · simp only at hr
      by_cases hp : p.1 = k
      · rcases p with ⟨a, b⟩
        simp only at hp
        subst hp
        rw [if_pos rfl] at hr
        cases Option.some.inj hr
        exact Or.inl (List.mem_cons_self _ _)
      · rw [if_neg hp] at hr
        exact Or.inr hr

/-- A successful `dlookup` returns the value of some binding of the list. -/
theorem dlookup_mem {m : List (Str × GroupData)} {k : Str} {v : GroupData}
    (h : dlookup m k = some v) : (k, v) ∈ m := by
  rcases dlookup_foldl m k none h with hmem | hr
  · exact hmem
  · cases hr

/-- The diff loop with an arbitrary accumulator: it appends exactly the
rows of the ids satisfying `diffPred`, in order. -/
theorem compare_foldl (ty : CompareType) (includeState : Bool)
    (data1 data2 : List (Str × GroupData)) (order2 : List Str) (acc : List Change) :
    order2.foldl (compareStep ty includeState data1 data2) acc =
      acc ++ (order2.filter (diffPred ty includeState data1 data2)).map
        (fun g => mkChange ty includeState ((dlookup data1 g).getD emptyGroupData)
          ((dlookup data2 g).getD emptyGroupData)) := by
  induction order2 generalizing acc with
  | nil => simp
  | cons g gs ih =>
    simp only [List.foldl_cons, List.filter_cons]
    by_cases h1 : (dlookup data1 g).isSome ∧ (dlookup data2 g).isSome
    · by_cases h2 : changedPred ty includeState ((dlookup data1 g).getD emptyGroupData)
          ((dlookup data2 g).getD emptyGroupData)
      · have hp : diffPred ty includeState data1 data2 g = true := by
          simp [diffPred, h1.1, h1.2, h2]
        rw [hp]
        simp only [compareStep, if_pos h1, if_pos h2, ih]
        simp
      · have hp : diffPred ty includeState data1 data2 g = false := by
          simp [diffPred, h2]
        rw [hp]
        simp only [compareStep, if_pos h1, if_neg h2, ih]
        simp
    · have hp : diffPred ty includeState data1 data2 g = false := by
        rcases not_and_or.mp h1 with h | h <;>
          simp [diffPred, Bool.eq_false_iff.mpr h]
      rw [hp]
      simp only [compareStep, if_neg h1, ih]
      simp

/-- `compare_files` is exactly the map of the change-row builder over the
ids of the newer order that satisfy the diff predicate. -/
theorem compare_files_eq (ty : CompareType) (includeState : Bool)
    (data1 data2 : List (Str × GroupData)) (order2 : List Str) :
    compare_files ty includeState data1 data2 order2 =
      (diffIds ty includeState data1 data2 order2).map
        (fun g => mkChange ty includeState ((dlookup data1 g).getD emptyGroupData)
          ((dlookup data2 g).getD emptyGroupData)) := by
  simpa [compare_files, diffIds] using
    compare_foldl ty includeState data1 data2 order2 []

/-! ## Claim C2 -/

/-- **C2**: a group id `g` contributes a change row to the diff iff it is
present in both data dictionaries and the change predicate (content
differs, or state differs when `includeState` is set) holds; ids absent
from either snapshot, and ids with no change under the active predicate,
never appear.  The first conjunct ties the emitted rows to the
contributing ids. -/
theorem claim_c2_diff_membership (ty : CompareType) (includeState : Bool)
    (data1 data2 : List (Str × GroupData)) (order2 : List Str) (g : Str)
    (hg : (dlookup data2 g).isSome → g ∈ order2) :
    compare_files ty includeState data1 data2 order2 =
      (diffIds ty includeState data1 data2 order2).map
        (fun h => mkChange ty includeState ((dlookup data1 h).getD emptyGroupData)
          ((dlookup data2 h).getD emptyGroupData)) ∧
    (g ∈ diffIds ty includeState data1 data2 order2 ↔
      (dlookup data1 g).isSome ∧ (dlookup data2 g).isSome ∧
        changedPred ty includeState ((dlookup data1 g).getD emptyGroupData)
          ((dlookup data2 g).getD emptyGroupData)) := by
  refine ⟨compare_files_eq ty includeState data1 data2 order2, ?_⟩
  rw [diffIds, List.mem_filter]
  constructor
  · rintro ⟨_, hpred⟩
    simp only [diffPred, Bool.and_eq_true] at hpred
    exact ⟨hpred.1.1, hpred.1.2, hpred.2⟩
  · rintro ⟨h1, h2, h3⟩
    exact ⟨hg h2, by simp [diffPred, h1, h2, h3]⟩

/-- Witness for C2 at concrete snapshots: the common, changed id `g1`
contributes. -/
theorem claim_c2_diff_membership_witness :
    "g1".data ∈ diffIds CompareType.name true demoData1 demoData2 demoOrder2 :=
  ((claim_c2_diff_membership CompareType.name true demoData1 demoData2 demoOrder2
    ("g1".data) (by decide)).2).mpr (by decide)

/-! ## Claim C6 -/

/-- **C6**: the diff output is exactly the change-row builder mapped over
the newer snapshot's group order restricted (by `List.filter`) to the
contributing ids — so its order is the newer order's, and the contributing
ids are a sublist of the newer order, never the older snapshot's order and
never an unordered set order. -/
theorem claim_c6_diff_order (ty : CompareType) (includeState : Bool)
    (data1 data2 : List (Str × GroupData)) (order2 : List Str) :
    compare_files ty includeState data1 data2 order2 =
      (order2.filter (diffPred ty includeState data1 data2)).map
        (fun g => mkChange ty includeState ((dlookup data1 g).getD emptyGroupData)
          ((dlookup data2 g).getD emptyGroupData)) ∧
    (diffIds ty includeState data1 data2 order2).Sublist order2 := by
  refine ⟨compare_files_eq ty includeState data1 data2 order2, ?_⟩
  rw [diffIds]
  exact List.filter_sublist _

/-! ## Claim C10 -/

/-- **C10**: every emitted change row takes its context fields
(abbreviation, name source and — in description mode — description source)
from the NEWER snapshot's resolved fields, while content-before and
state-before come from the older snapshot and content-after and
state-after from the newer. -/
theorem claim_c10_context_from_newer (ty : CompareType) (includeState : Bool)
    (data1 data2 : List (Str × GroupData)) (order2 : List Str) (r : Change)
    (hr : r ∈ compare_files ty includeState data1 data2 order2) :
    ∃ g ∈ order2,
      (dlookup data1 g).isSome ∧ (dlookup data2 g).isSome ∧
      r.abbr = ((dlookup data2 g).getD emptyGroupData).abbr ∧
      r.name_source = ((dlookup data2 g).getD emptyGroupData).name_source ∧
      (ty = CompareType.description →
        r.desc_source = some ((dlookup data2 g).getD emptyGroupData).desc_source) ∧
      r.content_before = contentOf ty ((dlookup data1 g).getD emptyGroupData) ∧
      r.content_after = contentOf ty ((dlookup data2 g).getD emptyGroupData) ∧
      (includeState = true →
        r.state_before = some (stateOf ty ((dlookup data1 g).getD emptyGroupData)) ∧
        r.state_after = some (stateOf ty ((dlookup data2 g).getD emptyGroupData))) := by
  rw [compare_files_eq, diffIds] at hr
  rcases List.mem_map.mp hr with ⟨g, hg, hrg⟩
  rcases List.mem_filter.mp hg with ⟨hmem, hpred⟩
  simp only [diffPred, Bool.and_eq_true] at hpred
  refine ⟨g, hmem, hpred.1.1, hpred.1.2, ?_⟩
  subst hrg
  refine ⟨rfl, rfl, ?_, rfl, rfl, ?_⟩
  · intro hty
    subst hty
    rfl
  · intro hst
    subst hst
    exact ⟨rfl, rfl⟩

/-- Witness for C10 at concrete snapshots: the row emitted for `g1` in
description mode with state columns. -/
theorem claim_c10_context_from_newer_witness :
    ∃ g ∈ demoOrder2,
      (dlookup demoData1 g).isSome ∧ (dlookup demoData2 g).isSome ∧
      (mkChange CompareType.description true demoOld demoNew).abbr =
        ((dlookup demoData2 g).getD emptyGroupData).abbr ∧
      (mkChange CompareType.description true demoOld demoNew).name_source =
        ((dlookup demoData2 g).getD emptyGroupData).name_source ∧
      (CompareType.description = CompareType.description →
        (mkChange CompareType.description true demoOld demoNew).desc_source =
          some ((dlookup demoData2 g).getD emptyGroupData).desc_source) ∧
      (mkChange CompareType.description true demoOld demoNew).content_before =
        contentOf CompareType.description ((dlookup demoData1 g).getD emptyGroupData) ∧
      (mkChange CompareType.description true demoOld demoNew).content_after =
        contentOf CompareType.description ((dlookup demoData2 g).getD emptyGroupData) ∧
      (true = true →
        (mkChange CompareType.description true demoOld demoNew).state_before =
          some (stateOf CompareType.description ((dlookup demoData1 g).getD emptyGroupData)) ∧
        (mkChange CompareType.description true demoOld demoNew).state_after =
          some (stateOf CompareType.description ((dlookup demoData2 g).getD emptyGroupData))) :=
  claim_c10_context_from_newer CompareType.description true demoData1 demoData2 demoOrder2
    (mkChange CompareType.description true demoOld demoNew) (by decide)

/-! ## Claim C5 -/

/-- The `comma_lists` loop with an arbitrary accumulator pair: it appends
the increased-count records and the decreased-count records to the two
buckets, each in encounter order. -/
theorem cl_foldl (u : Bool) (uri : Str) (all : List XNode) (tus : List XNode)
    (acc : List CLResult × List CLResult) :
    tus.foldl (clStep u uri all) acc =
      (acc.1 ++ (tus.filter (clIncreasedPred u uri)).map (mkCLResult u uri all),
       acc.2 ++ (tus.filter (clDecreasedPred u uri)).map (mkCLResult u uri all)) := by
  induction tus generalizing acc with
  | nil => simp
  | cons tu tus ih =>
    simp only [List.foldl_cons, List.filter_cons]
    by_cases hname : "_Name".data <:+ unitIdOf tu
    · by_cases hgt : (splitTrim (extract_text (findTarget u uri tu))).length >
          (splitTrim (extract_text (findSource u uri tu))).length
      · have hne : (splitTrim (extract_text (findSource u uri tu))).length ≠
            (splitTrim (extract_text (findTarget u uri tu))).length := by omega
        have hnlt : ¬ (splitTrim (extract_text (findTarget u uri tu))).length <
            (splitTrim (extract_text (findSource u uri tu))).length := by omega
        have hstep : clStep u uri all acc tu = (acc.1 ++ [mkCLResult u uri all tu], acc.2) := by
          simp [clStep, hname, hne, hgt]
        rw [hstep, ih]
        have hip : clIncreasedPred u uri tu = true := by
          simp [clIncreasedPred, hname, hgt]
        have hdp : clDecreasedPred u uri tu = false := by
          simp [clDecreasedPred, hnlt]
        rw [hip, hdp]
        simp
      · by_cases hne : (splitTrim (extract_text (findSource u uri tu))).length ≠
            (splitTrim (extract_text (findTarget u uri tu))).length
        · have hlt : (splitTrim (extract_text (findTarget u uri tu))).length <
              (splitTrim (extract_text (findSource u uri tu))).length := by omega
          have hstep : clStep u uri all acc tu = (acc.1, acc.2 ++ [mkCLResult u uri all tu]) := by
            simp [clStep, hname, hne, hgt]
          rw [hstep, ih]
          have hip : clIncreasedPred u uri tu = false := by
            simp [clIncreasedPred, hgt]
          have hdp : clDecreasedPred u uri tu = true := by
            simp [clDecreasedPred, hname, hlt]
          rw [hip, hdp]
          simp
        · have heq : (splitTrim (extract_text (findSource u uri tu))).length =
              (splitTrim (extract_text (findTarget u uri tu))).length := by omega
          have hstep : clStep u uri all acc tu = acc := by
            simp [clStep, hname, heq]
          rw [hstep, ih]
          have hip : clIncreasedPred u uri tu = false := by
            simp [clIncreasedPred]
            omega
          have hdp : clDecreasedPred u uri tu = false := by
            simp [clDecreasedPred]
            omega
          rw [hip, hdp]
          simp
    · have hstep : clStep u uri all acc tu = acc := by
        simp [clStep, hname]
      rw [hstep, ih]
      have hip : clIncreasedPred u uri tu = false := by
        simp [clIncreasedPred, hname]
      have hdp : clDecreasedPred u uri tu = false := by
        simp [clDecreasedPred, hname]
      rw [hip, hdp]
      simp

/-- **C5**: a `_Name` unit produces a record iff the comma-piece counts of
its trimmed source and target differ; records with a larger target count
go to the first (target longer) bucket and the others to the second
(target shorter) bucket, each preserving encounter order; the empty string
splits to exactly one piece. -/
theorem claim_c5_list_length_mismatch (root : XNode) :
    (comma_lists root).1 =
      ((clAllUnits root).filter (clIncreasedPred (usesNamespace root) (nsUriOf root))).map
        (mkCLResult (usesNamespace root) (nsUriOf root) (clAllUnits root)) ∧
    (comma_lists root).2 =
      ((clAllUnits root).filter (clDecreasedPred (usesNamespace root) (nsUriOf root))).map
        (mkCLResult (usesNamespace root) (nsUriOf root) (clAllUnits root)) ∧
    (∀ tu : XNode,
      (clIncreasedPred (usesNamespace root) (nsUriOf root) tu ||
        clDecreasedPred (usesNamespace root) (nsUriOf root) tu) =
      (decide ("_Name".data <:+ unitIdOf tu) &&
        decide ((splitTrim (extract_text (findSource (usesNamespace root) (nsUriOf root) tu))).length ≠
          (splitTrim (extract_text (findTarget (usesNamespace root) (nsUriOf root) tu))).length))) ∧
    splitTrim [] = [[]] := by
  have hcl : comma_lists root =
      (((clAllUnits root).filter (clIncreasedPred (usesNamespace root) (nsUriOf root))).map
         (mkCLResult (usesNamespace root) (nsUriOf root) (clAllUnits root)),
       ((clAllUnits root).filter (clDecreasedPred (usesNamespace root) (nsUriOf root))).map
         (mkCLResult (usesNamespace root) (nsUriOf root) (clAllUnits root))) := by
    rw [comma_lists]
    simpa [clAllUnits] using
      cl_foldl (usesNamespace root) (nsUriOf root) (clAllUnits root) (clAllUnits root) ([], [])
  refine ⟨by rw [hcl], by rw [hcl], ?_, rfl⟩
  intro tu
  rw [clIncreasedPred, clDecreasedPred, ← Bool.and_or_distrib_left]
  congr 1
  by_cases hA : (splitTrim (extract_text (findTarget (usesNamespace root) (nsUriOf root) tu))).length >
      (splitTrim (extract_text (findSource (usesNamespace root) (nsUriOf root) tu))).length <;>
    by_cases hB : (splitTrim (extract_text (findTarget (usesNamespace root) (nsUriOf root) tu))).length <
      (splitTrim (extract_text (findSource (usesNamespace root) (nsUriOf root) tu))).length <;>
    simp [hA, hB] <;> omega

/-! ## Claim C1 -/

/-- No tag string ends in both `group` and `trans-unit`. -/
theorem not_group_and_trans_unit {s : Str} (hg : "group".data <:+ s)
    (ht : "trans-unit".data <:+ s) : False := by
  rcases List.suffix_or_suffix_of_suffix hg ht with h | h <;> revert h <;> decide

/-- **C1**: a node is among a group's effective trans-units iff it is a
direct child tagged as a trans-unit, or a descendant trans-unit of a
direct child group whose identifier does NOT contain `_SubPos`; direct
child groups flagged `_SubPos` contribute nothing. -/
theorem claim_c1_effective_children (useNamespace : Bool) (uri : Str)
    (children : List XNode) (x : XNode) :
    x ∈ collectTransUnits useNamespace uri children ↔
      ((x ∈ children ∧ "trans-unit".data <:+ tagStr x) ∨
       (∃ c ∈ children, "group".data <:+ tagStr c ∧
         ¬ ("_SubPos".data <:+: attrGetD c ("id".data) []) ∧
         x ∈ findallDesc (tagIs useNamespace uri ("trans-unit".data)) c)) := by
  rw [collectTransUnits, List.mem_flatMap]
  constructor
  · rintro ⟨c, hc, hx⟩
    simp only [effectiveUnitsOfChild] at hx
    by_cases h1 : "group".data <:+ tagStr c ∧ "_SubPos".data <:+: attrGetD c ("id".data) []
    · rw [if_pos h1] at hx
      cases hx
    · rw [if_neg h1] at hx
      by_cases h2 : "trans-unit".data <:+ tagStr c
      · rw [if_pos h2] at hx
        rcases List.mem_singleton.mp hx with rfl
        exact Or.inl ⟨hc, h2⟩
      · rw [if_neg h2] at hx
        by_cases h3 : "group".data <:+ tagStr c
        · rw [if_pos h3] at hx
          exact Or.inr ⟨c, hc, h3, fun hsub => h1 ⟨h3, hsub⟩, hx⟩
        · rw [if_neg h3] at hx
          cases hx
  · rintro (⟨hc, ht⟩ | ⟨c, hc, hgrp, hsub, hx⟩)
    · refine ⟨x, hc, ?_⟩
      simp only [effectiveUnitsOfChild]
      have h1 : ¬ ("group".data <:+ tagStr x ∧ "_SubPos".data <:+: attrGetD x ("id".data) []) := by
        rintro ⟨hg, _⟩
        exact not_group_and_trans_unit hg ht
      rw [if_neg h1, if_pos ht]
      exact List.mem_singleton.mpr rfl
    · refine ⟨c, hc, ?_⟩
      simp only [effectiveUnitsOfChild]
      have h1 : ¬ ("group".data <:+ tagStr c ∧ "_SubPos".data <:+: attrGetD c ("id".data) []) := by
        rintro ⟨_, hs⟩
        exact hsub hs
      have h2 : ¬ "trans-unit".data <:+ tagStr c :=
        fun ht => not_group_and_trans_unit hgrp ht
      rw [if_neg h1, if_neg h2, if_pos hgrp]
      exact hx

/-! ## Claim C3 -/

/-- **C3**: for a unit passing the `_Abbr` / needs-translation filters (and
having both source and target elements), exactly one of four mutually
exclusive rules applies, keyed by `approved = yes` and `translate = no`:
approved+unsuppressed records the non-empty trimmed comma pieces of the
target that occur inside the raw source text, iff at least one exists;
approved+suppressed and unapproved+unsuppressed record iff source text
equals target text; unapproved+suppressed never records. -/
theorem claim_c3_four_way_rule (tu source target : XNode)
    (hres : ¬ ("_Abbr".data <:+ attrGetD tu ("resname".data) []))
    (hsrc : findChild (tagIs true xliff12 ("source".data)) tu = some source)
    (htgt : findChild (tagIs true xliff12 ("target".data)) tu = some target)
    (hstate : ¬ (attrGet target ("state".data) = some ("needs-translation".data))) :
    (attrGet tu ("approved".data) = some ("yes".data) ∧
        attrGet tu ("translate".data) ≠ some ("no".data) →
      processUnit tu =
        (if (splitTrim (nodeTextOf target)).filter
              (fun piece => decide (piece ≠ []) && decide (piece <:+: nodeTextOf source)) ≠ [] then
          some { id := attrGetD tu ("id".data) ("N/A".data),
                 resname := attrGetD tu ("resname".data) [],
                 source := nodeTextOf source, target := nodeTextOf target,
                 matching_pieces := (splitTrim (nodeTextOf target)).filter
                   (fun piece => decide (piece ≠ []) && decide (piece <:+: nodeTextOf source)),
                 type := identType1 }
        else none)) ∧
    (attrGet tu ("approved".data) = some ("yes".data) ∧
        attrGet tu ("translate".data) = some ("no".data) →
      processUnit tu =
        (if nodeTextOf source = nodeTextOf target then
          some { id := attrGetD tu ("id".data) ("N/A".data),
                 resname := attrGetD tu ("resname".data) [],
                 source := nodeTextOf source, target := nodeTextOf target,
                 matching_pieces := [nodeTextOf source], type := identType2 }
        else none)) ∧
    (¬ attrGet tu ("approved".data) = some ("yes".data) ∧
        attrGet tu ("translate".data) ≠ some ("no".data) →
      processUnit tu =
        (if nodeTextOf source = nodeTextOf target then
          some { id := attrGetD tu ("id".data) ("N/A".data),
                 resname := attrGetD tu ("resname".data) [],
                 source := nodeTextOf source, target := nodeTextOf target,
                 matching_pieces := [nodeTextOf source], type := identType3 }
        else none)) ∧
    (¬ attrGet tu ("approved".data) = some ("yes".data) ∧
        attrGet tu ("translate".data) = some ("no".data) →
      processUnit tu = none) := by
  refine ⟨?_, ?_, ?_, ?_⟩ <;> rintro ⟨ha, ht⟩ <;>
      simp only [processUnit, hsrc, htgt] <;>
      rw [if_neg hres, if_neg hstate]
  · rw [if_pos ⟨ha, ht⟩]
  · rw [if_neg (by rintro ⟨h1, h2⟩; exact h2 ht), if_pos ⟨ha, ht⟩]
  · rw [if_neg (by rintro ⟨h1, h2⟩; exact ha h1), if_neg (by rintro ⟨h1, h2⟩; exact ha h1),
      if_pos ⟨ha, ht⟩]
  · rw [if_neg (by rintro ⟨h1, h2⟩; exact h2 ht), if_neg (by rintro ⟨h1, h2⟩; exact ha h1),
      if_neg (by rintro ⟨h1, h2⟩; exact h2 ht)]

/-- Witness for C3 at the spec's concrete example: approved, not
translate-suppressed, source `red, green, blue`, target `vermelho, green`
yields exactly the matched piece `green`. -/
theorem claim_c3_four_way_rule_witness :
    processUnit identTU =
      some { id := "42".data, resname := "d_Name".data,
             source := "red, green, blue".data, target := "vermelho, green".data,
             matching_pieces := ["green".data], type := identType1 } := by
  have h := (claim_c3_four_way_rule identTU identSrcEl identTgtEl
    (by decide) rfl rfl (by decide)).1 (by decide)
  exact h.trans (by decide)

/-! ## Claim C7 -/

theorem orderedInsert_append {A : Type} (r : A → A → Prop) [DecidableRel r] (a : A)
    (l1 l2 : List A) (h : ∀ y ∈ l1, ¬ r a y) :
    List.orderedInsert r a (l1 ++ l2) = l1 ++ List.orderedInsert r a l2 := by
  induction l1 with
  | nil => rfl
  | cons b l1 ih =>
    rw [List.cons_append, List.orderedInsert, if_neg (h b (List.mem_cons_self b l1)),
      ih (fun y hy => h y (List.mem_cons_of_mem b hy)), List.cons_append]

theorem orderedInsert_eq_cons {A : Type} (r : A → A → Prop) [DecidableRel r] (a : A)
    (l : List A) (h : ∀ b ∈ l.head?, r a b) : List.orderedInsert r a l = a :: l := by
  cases l with
  | nil => rfl
  | cons b t => rw [List.orderedInsert, if_pos (h b rfl)]

/-- A stable sort by a key taking values in `{1, 2, 3}` is the
concatenation of the three key-classes, each in original order. -/
theorem insertionSort_key_three {A : Type} (k : A → Nat) (l : List A)
    (hk : ∀ a ∈ l, k a = 1 ∨ k a = 2 ∨ k a = 3) :
    List.insertionSort (fun a b => k a ≤ k b) l =
      l.filter (fun a => k a == 1) ++ l.filter (fun a => k a == 2) ++
        l.filter (fun a => k a == 3) := by
  induction l with
  | nil => rfl
  | cons a l ih =>
    have hl : ∀ b ∈ l, k b = 1 ∨ k b = 2 ∨ k b = 3 :=
      fun b hb => hk b (List.mem_cons_of_mem a hb)
    have hmem : ∀ b ∈ l.filter (fun a => k a == 1) ++ l.filter (fun a => k a == 2) ++
        l.filter (fun a => k a == 3), k b = 1 ∨ k b = 2 ∨ k b = 3 := by
      intro b hb
      simp only [List.mem_append] at hb
      rcases hb with (hb | hb) | hb <;> exact hl b (List.mem_of_mem_filter hb)
    rw [List.insertionSort, ih hl]
    rcases hk a (List.mem_cons_self a l) with h1 | h2 | h3
    · have hcons : List.orderedInsert (fun a b => k a ≤ k b) a
          (l.filter (fun b => k b == 1) ++ l.filter (fun b => k b == 2) ++
            l.filter (fun b => k b == 3)) =
          a :: (l.filter (fun b => k b == 1) ++ l.filter (fun b => k b == 2) ++
            l.filter (fun b => k b == 3)) := by
        apply orderedInsert_eq_cons
        intro b hb
        have hbmem := List.mem_of_mem_head? hb
        rcases hmem b hbmem with h | h | h <;> (show k a ≤ k b; omega)
      rw [hcons]
      simp [List.filter_cons, h1]
    · have hno1 : ∀ y ∈ l.filter (fun b => k b == 1), ¬ ((fun a b => k a ≤ k b) a y) := by
        intro y hy
        have := List.of_mem_filter hy
        simp only [beq_iff_eq] at this
        show ¬ k a ≤ k y
        omega
      have hcons : List.orderedInsert (fun a b => k a ≤ k b) a
          (l.filter (fun b => k b == 2) ++ l.filter (fun b => k b == 3)) =
          a :: (l.filter (fun b => k b == 2) ++ l.filter (fun b => k b == 3)) := by
        apply orderedInsert_eq_cons
        intro b hb
        have hbmem := List.mem_of_mem_head? hb
        rw [List.mem_append] at hbmem
        show k a ≤ k b
        rcases hbmem with hb1 | hb1 <;>
          (have hfb := List.of_mem_filter hb1
           simp only [beq_iff_eq] at hfb
           omega)
      rw [List.append_assoc, orderedInsert_append _ _ _ _ hno1, hcons]
      simp [List.filter_cons, h2, List.append_assoc]
    · have hno12 : ∀ y ∈ l.filter (fun b => k b == 1) ++ l.filter (fun b => k b == 2),
          ¬ ((fun a b => k a ≤ k b) a y) := by
        intro y hy
        rw [List.mem_append] at hy
        show ¬ k a ≤ k y
        rcases hy with hy | hy <;>
          (have hfy := List.of_mem_filter hy
           simp only [beq_iff_eq] at hfy
           omega)
      have hcons : List.orderedInsert (fun a b => k a ≤ k b) a
          (l.filter (fun b => k b == 3)) = a :: l.filter (fun b => k b == 3) := by
        apply orderedInsert_eq_cons
        intro b hb
        have hbmem := List.mem_of_mem_head? hb
        have := List.of_mem_filter hbmem
        simp only [beq_iff_eq] at this
        show k a ≤ k b
        omega
      rw [orderedInsert_append _ _ _ _ hno12, hcons]
      simp [List.filter_cons, h3, List.append_assoc]

/-- Every record produced by the per-unit rule table carries one of the
three active type labels. -/
theorem processUnit_type {tu : XNode} {r : IdentResult} (h : processUnit tu = some r) :
    r.type = identType1 ∨ r.type = identType2 ∨ r.type = identType3 := by
  simp only [processUnit] at h
  repeat' split at h
  all_goals try cases h
  all_goals
    first
      | exact Or.inl rfl
      | exact Or.inr (Or.inl rfl)
      | exact Or.inr (Or.inr rfl)

theorem typeOrderOf_one (t : Str) : (typeOrderOf t == 1) = decide (t = identType1) := by
  unfold typeOrderOf
  by_cases h1 : t = identType1
  · rw [if_pos h1]
    subst h1
    decide
  · rw [if_neg h1]
    by_cases h2 : t = identType2
    · rw [if_pos h2]
      subst h2
      decide
    · rw [if_neg h2]
      by_cases h3 : t = identType3
      · rw [if_pos h3]
        subst h3
        decide
      · rw [if_neg h3]
        simp [h1]

theorem typeOrderOf_two (t : Str) : (typeOrderOf t == 2) = decide (t = identType2) := by
  unfold typeOrderOf
  by_cases h1 : t = identType1
  · rw [if_pos h1]
    subst h1
    decide
  · rw [if_neg h1]
    by_cases h2 : t = identType2
    · rw [if_pos h2]
      subst h2
      decide
    · rw [if_neg h2]
      by_cases h3 : t = identType3
      · rw [if_pos h3]
        subst h3
        decide
      · rw [if_neg h3]
        simp [h2]

theorem typeOrderOf_three (t : Str) : (typeOrderOf t == 3) = decide (t = identType3) := by
  unfold typeOrderOf
  by_cases h1 : t = identType1
  · rw [if_pos h1]
    subst h1
    decide
  · rw [if_neg h1]
    by_cases h2 : t = identType2
    · rw [if_pos h2]
      subst h2
      decide
    · rw [if_neg h2]
      by_cases h3 : t = identType3
      · rw [if_pos h3]
        subst h3
        decide
      · rw [if_neg h3]
        simp [h3]

/-- **C7**: a unit whose identifier (resname) ends in `_Abbr` yields no
record; a unit whose target state is `needs-translation` yields no record;
and the sorted output groups the records by which rule fired — comma-split
first, then approved-suppressed-identical, then unapproved-identical —
preserving within-group encounter order. -/
theorem claim_c7_exclusion_and_ordering (root : XNode) :
    (∀ tu : XNode, "_Abbr".data <:+ attrGetD tu ("resname".data) [] →
      processUnit tu = none) ∧
    (∀ tu target : XNode, findChild (tagIs true xliff12 ("target".data)) tu = some target →
      attrGet target ("state".data) = some ("needs-translation".data) →
      processUnit tu = none) ∧
    sortResults (find_identical_translations root) =
      (find_identical_translations root).filter (fun r => decide (r.type = identType1)) ++
        (find_identical_translations root).filter (fun r => decide (r.type = identType2)) ++
        (find_identical_translations root).filter (fun r => decide (r.type = identType3)) := by
  refine ⟨?_, ?_, ?_⟩
  · intro tu h
    simp only [processUnit]
    rw [if_pos h]
  · intro tu target htgt hstate
    simp only [processUnit, htgt]
    split
    · rfl
    · cases hsrc : findChild (tagIs true xliff12 ("source".data)) tu with
      | none => rfl
      | some s => simp [hstate]
  · have hk : ∀ r ∈ find_identical_translations root,
        typeOrderOf r.type = 1 ∨ typeOrderOf r.type = 2 ∨ typeOrderOf r.type = 3 := by
      intro r hr
      rcases List.mem_filterMap.mp hr with ⟨tu, htu, hpu⟩
      rcases processUnit_type hpu with h | h | h <;> rw [h]
      · exact Or.inl (by decide)
      · exact Or.inr (Or.inl (by decide))
      · exact Or.inr (Or.inr (by decide))
    have hsort := insertionSort_key_three (fun r : IdentResult => typeOrderOf r.type)
      (find_identical_translations root) hk
    simp only [typeOrderOf_one, typeOrderOf_two, typeOrderOf_three] at hsort
    rw [sortResults]
    exact hsort

/-- Witness for C7: the `_Abbr`-resname fixture and the
needs-translation-target fixture each yield no record. -/
theorem claim_c7_exclusion_and_ordering_witness :
    processUnit identAbbrTU = none ∧ processUnit identNtTU = none :=
  ⟨(claim_c7_exclusion_and_ordering identDoc).1 identAbbrTU (by decide),
   (claim_c7_exclusion_and_ordering identDoc).2.1 identNtTU identNtTgtEl rfl (by decide)⟩

/-! ## Claim C4 -/

/-- One `updateUnit` step preserves the needs-translation-suppression
invariant for both the name and the description target. -/
theorem updateUnit_nt_inv (u : Bool) (uri : Str) (gd : GroupData) (tu : XNode)
    (h1 : gd.name_target_state = "needs-translation".data → gd.name_target = [])
    (h2 : gd.desc_target_state = "needs-translation".data → gd.desc_target = []) :
    ((updateUnit u uri gd tu).name_target_state = "needs-translation".data →
      (updateUnit u uri gd tu).name_target = []) ∧
    ((updateUnit u uri gd tu).desc_target_state = "needs-translation".data →
      (updateUnit u uri gd tu).desc_target = []) := by
  by_cases ha : "_Abbr".data <:+ attrGetD tu ("id".data) []
  · simp only [updateUnit, if_pos ha]
    exact ⟨h1, h2⟩
  · by_cases hn : "_Name".data <:+ attrGetD tu ("id".data) []
    · simp only [updateUnit, if_neg ha, if_pos hn]
      refine ⟨?_, h2⟩
      intro hst
      rw [if_pos hst]
    · by_cases hd : "_Desc_0".data <:+ attrGetD tu ("id".data) []
      · simp only [updateUnit, if_neg ha, if_neg hn, if_pos hd]
        refine ⟨h1, ?_⟩
        intro hst
        rw [if_pos hst]
      · simp only [updateUnit, if_neg ha, if_neg hn, if_neg hd]
        exact ⟨h1, h2⟩

/-- The suppression invariant carried through a whole unit fold. -/
theorem foldl_updateUnit_nt_inv (u : Bool) (uri : Str) (tus : List XNode) (gd : GroupData)
    (h1 : gd.name_target_state = "needs-translation".data → gd.name_target = [])
    (h2 : gd.desc_target_state = "needs-translation".data → gd.desc_target = []) :
    ((tus.foldl (updateUnit u uri) gd).name_target_state = "needs-translation".data →
      (tus.foldl (updateUnit u uri) gd).name_target = []) ∧
    ((tus.foldl (updateUnit u uri) gd).desc_target_state = "needs-translation".data →
      (tus.foldl (updateUnit u uri) gd).desc_target = []) := by
  induction tus generalizing gd with
  | nil => exact ⟨h1, h2⟩
  | cons tu tus ih =>
    have h := updateUnit_nt_inv u uri gd tu h1 h2
    exact ih (updateUnit u uri gd tu) h.1 h.2

/-- Every pair accumulated by the `parse_xlf_file` fold is the resolved
record of one of the folded groups (or was in the accumulator already). -/
theorem parse_foldl_mem (u : Bool) (uri : Str) (groups : List XNode)
    (acc : List (Str × GroupData) × List Str) (p : Str × GroupData)
    (hp : p ∈ (groups.foldl
      (fun acc g =>
        (acc.1 ++ [(attrGetD g ("id".data) [], resolveGroup u uri g)],
         acc.2 ++ [attrGetD g ("id".data) []])) acc).1) :
    p ∈ acc.1 ∨ ∃ grp ∈ groups, p = (attrGetD grp ("id".data) [], resolveGroup u uri grp) := by
  induction groups generalizing acc with
  | nil => exact Or.inl hp
  | cons g gs ih =>
    rcases ih _ hp with hacc | ⟨grp, hgrp, hpe⟩
    · rw [List.mem_append] at hacc
      rcases hacc with hacc | hacc
      · exact Or.inl hacc
      · rcases List.mem_singleton.mp hacc with rfl
        exact Or.inr ⟨g, List.mem_cons_self g gs, rfl⟩
    · exact Or.inr ⟨grp, List.mem_cons_of_mem g hgrp, hpe⟩

/-- A value found in the parsed data dictionary is the resolved record of
some qualifying group of the document. -/
theorem parse_values (root : XNode) {g : Str} {gd : GroupData}
    (h : dlookup (parse_xlf_file root).1 g = some gd) :
    ∃ grp ∈ targetGroupsOf root,
      gd = resolveGroup (usesNamespace root) (nsUriOf root) grp := by
  have hmem := dlookup_mem h
  simp only [parse_xlf_file] at hmem
  rcases parse_foldl_mem (usesNamespace root) (nsUriOf root) (targetGroupsOf root)
      ([], []) (g, gd) hmem with habs | ⟨grp, hgrp, hpe⟩
  · cases habs
  · exact ⟨grp, hgrp, congrArg Prod.snd hpe⟩

/-- **C4 (counterexample)**: in list-length mismatch detection a target in
state `needs-translation` is NOT treated as empty — `comma_lists` on a
unit with source `x` and stored target text `a, b` under that state emits
a record built from the stored text (counts 1 vs 2), where treating the
target as empty would have produced no record (counts 1 vs 1). -/
theorem claim_c4_counterexample :
    (comma_lists clNtDoc).1 =
      [{ abbr_source := [], name_source := "x".data, name_target := "a, b".data,
         target_state := "needs-translation".data, source_count := 1, target_count := 2 }] ∧
    targetState (findTarget (usesNamespace clNtDoc) (nsUriOf clNtDoc) clNtTU) =
      "needs-translation".data ∧
    (splitTrim []).length = (splitTrim ("x".data)).length := by
  refine ⟨by decide, by decide, by decide⟩

/-- **C4 (amended)**: the needs-translation suppression holds in snapshot
resolution — a resolved group whose name (resp. description) target state
is `needs-translation` has empty name (resp. description) target text —
and identical-translation detection skips such units entirely; but
list-length mismatch detection uses the stored target text regardless of
state (its record fields depend only on the extracted text). -/
theorem claim_c4_needs_translation_suppression (root : XNode) (g : Str) (gd : GroupData)
    (hg : dlookup (parse_xlf_file root).1 g = some gd) :
    (gd.name_target_state = "needs-translation".data → gd.name_target = []) ∧
    (gd.desc_target_state = "needs-translation".data → gd.desc_target = []) ∧
    (∀ tu target : XNode, findChild (tagIs true xliff12 ("target".data)) tu = some target →
      attrGet target ("state".data) = some ("needs-translation".data) →
      processUnit tu = none) ∧
    (∀ (u : Bool) (uri : Str) (all : List XNode) (tu : XNode),
      (mkCLResult u uri all tu).name_target = extract_text (findTarget u uri tu) ∧
      (mkCLResult u uri all tu).target_count =
        (splitTrim (extract_text (findTarget u uri tu))).length) := by
  rcases parse_values root hg with ⟨grp, hgrp, rfl⟩
  have hinv := foldl_updateUnit_nt_inv (usesNamespace root) (nsUriOf root)
    (collectTransUnits (usesNamespace root) (nsUriOf root) grp.children) emptyGroupData
    (fun _ => rfl) (fun _ => rfl)
  refine ⟨hinv.1, hinv.2, ?_, ?_⟩
  · intro tu target htgt hstate
    simp only [processUnit, htgt]
    split
    · rfl
    · cases hsrc : findChild (tagIs true xliff12 ("source".data)) tu with
      | none => rfl
      | some s => simp [hstate]
  · intro u uri all tu
    exact ⟨rfl, rfl⟩

/-- Witness for the amended C4 at a concrete parsed document: the group
`G9` has target state `needs-translation` with stored text `Stored`, and
its resolved name target is empty. -/
theorem claim_c4_needs_translation_suppression_witness :
    (resolveGroup (usesNamespace ntParseDoc) (nsUriOf ntParseDoc) ntGroup).name_target = [] :=
  (claim_c4_needs_translation_suppression ntParseDoc ("G9".data)
    (resolveGroup (usesNamespace ntParseDoc) (nsUriOf ntParseDoc) ntGroup)
    (by decide)).1 (by decide)

/-! ## Claim C9 -/

theorem length_filter_partition {A : Type} (p : A → Bool) (l : List A) :
    (l.filter p).length + (l.filter (fun a => !(p a))).length = l.length := by
  induction l with
  | nil => rfl
  | cons a l ih =>
    by_cases h : p a <;> simp [List.filter_cons, h] <;> omega

/-- The `extract_data` loop with an arbitrary accumulator: it appends one
row per group whose scan found the pattern and counts the groups whose
scan did not. -/
theorem extract_foldl (u : Bool) (uri : Str) (pt : PatternType) (groups : List XNode)
    (acc : List (List Str) × Nat) :
    groups.foldl (extractStep u uri pt) acc =
      (acc.1 ++ (groups.filter (fun g => (scanGroup u uri pt g).found)).map
        (fun g => extractRow pt (abbrOfGroup u uri g) (scanGroup u uri pt g)),
       acc.2 + (groups.filter (fun g => !(scanGroup u uri pt g).found)).length) := by
  induction groups generalizing acc with
  | nil => simp
  | cons g gs ih =>
    simp only [List.foldl_cons, List.filter_cons]
    by_cases hf : (scanGroup u uri pt g).found
    · have hstep : extractStep u uri pt acc g =
          (acc.1 ++ [extractRow pt (abbrOfGroup u uri g) (scanGroup u uri pt g)], acc.2) := by
        simp [extractStep, hf]
      rw [hstep, ih]
      simp [hf]
    · have hstep : extractStep u uri pt acc g = (acc.1, acc.2 + 1) := by
        simp [extractStep, hf]
      rw [hstep, ih]
      simp only [Bool.not_eq_true] at hf
      simp [hf]
      omega

/-- A fold over units none of which matches `_Name` leaves the name fields
of the accumulated record untouched. -/
theorem foldl_updateUnit_no_name (u : Bool) (uri : Str) (tus : List XNode) (gd : GroupData)
    (h : ∀ tu ∈ tus, ¬ "_Name".data <:+ attrGetD tu ("id".data) []) :
    (tus.foldl (updateUnit u uri) gd).name_source = gd.name_source ∧
    (tus.foldl (updateUnit u uri) gd).name_target = gd.name_target ∧
    (tus.foldl (updateUnit u uri) gd).name_target_state = gd.name_target_state := by
  induction tus generalizing gd with
  | nil => exact ⟨rfl, rfl, rfl⟩
  | cons tu tus ih =>
    have hn := h tu (List.mem_cons_self tu tus)
    have hstep : (updateUnit u uri gd tu).name_source = gd.name_source ∧
        (updateUnit u uri gd tu).name_target = gd.name_target ∧
        (updateUnit u uri gd tu).name_target_state = gd.name_target_state := by
      by_cases ha : "_Abbr".data <:+ attrGetD tu ("id".data) []
      · simp [updateUnit, if_pos ha]
      · by_cases hd : "_Desc_0".data <:+ attrGetD tu ("id".data) []
        · simp [updateUnit, if_neg ha, if_neg hn, if_pos hd]
        · simp [updateUnit, if_neg ha, if_neg hn, if_neg hd]
    rcases ih (updateUnit u uri gd tu)
        (fun tu' h' => h tu' (List.mem_cons_of_mem tu h')) with ⟨i1, i2, i3⟩
    exact ⟨i1.trans hstep.1, i2.trans hstep.2.1, i3.trans hstep.2.2⟩

/-- **C9**: structural absence is non-fatal — `extract_data` emits one row
per group whose scan found the desired element, counts the groups that
lacked it, the two together exhaust the qualifying groups; the wrapped
operations fail exactly when the top-level parse failed; and a group with
no `_Name` unit resolves with all name fields left empty. -/
theorem claim_c9_structural_absence (pt : PatternType) (root : XNode)
    (parsed : Except Str XNode) :
    (extract_data pt root).2 = ((targetGroupsOf root).filter
        (fun g => !(scanGroup (usesNamespace root) (nsUriOf root) pt g).found)).length ∧
    (extract_data pt root).1.length = ((targetGroupsOf root).filter
        (fun g => (scanGroup (usesNamespace root) (nsUriOf root) pt g).found)).length ∧
    (extract_data pt root).1.length + (extract_data pt root).2 =
      (targetGroupsOf root).length ∧
    (∀ e : Str, extract_data_run pt parsed = Except.error e ↔ parsed = Except.error e) ∧
    (∀ e : Str, parse_xlf_file_run parsed = Except.error e ↔ parsed = Except.error e) ∧
    (∀ grp : XNode,
      (∀ tu ∈ collectTransUnits (usesNamespace root) (nsUriOf root) grp.children,
        ¬ "_Name".data <:+ attrGetD tu ("id".data) []) →
      (resolveGroup (usesNamespace root) (nsUriOf root) grp).name_source = [] ∧
      (resolveGroup (usesNamespace root) (nsUriOf root) grp).name_target = [] ∧
      (resolveGroup (usesNamespace root) (nsUriOf root) grp).name_target_state = []) := by
  have hx : extract_data pt root =
      (((targetGroupsOf root).filter
          (fun g => (scanGroup (usesNamespace root) (nsUriOf root) pt g).found)).map
        (fun g => extractRow pt (abbrOfGroup (usesNamespace root) (nsUriOf root) g)
          (scanGroup (usesNamespace root) (nsUriOf root) pt g)),
       ((targetGroupsOf root).filter
          (fun g => !(scanGroup (usesNamespace root) (nsUriOf root) pt g).found)).length) := by
    rw [extract_data]
    simpa using extract_foldl (usesNamespace root) (nsUriOf root) pt (targetGroupsOf root)
      ([], 0)
  refine ⟨by rw [hx], by rw [hx]; simp, ?_, ?_, ?_, ?_⟩
  · rw [hx]
    simp only [List.length_map]
    exact length_filter_partition _ _
  · intro e
    cases parsed <;> simp [extract_data_run]
  · intro e
    cases parsed <;> simp [parse_xlf_file_run]
  · intro grp hno
    exact foldl_updateUnit_no_name (usesNamespace root) (nsUriOf root)
      (collectTransUnits (usesNamespace root) (nsUriOf root) grp.children) emptyGroupData hno

/-- Witness for C9: a group with only an `_Abbr` unit resolves with empty
name fields, and a failed parse propagates its error. -/
theorem claim_c9_structural_absence_witness :
    (resolveGroup (usesNamespace ntParseDoc) (nsUriOf ntParseDoc) abbrOnlyGroup).name_source
        = [] ∧
    extract_data_run PatternType.name (Except.error ("boom".data)) =
      Except.error ("boom".data) :=
  ⟨((claim_c9_structural_absence PatternType.name ntParseDoc
      (Except.error ("boom".data))).2.2.2.2.2 abbrOnlyGroup (by decide)).1,
   ((claim_c9_structural_absence PatternType.name ntParseDoc
      (Except.error ("boom".data))).2.2.2.1 ("boom".data)).mpr rfl⟩

/-! ## Claim C8: boundary lemmas for brace-separated tag strings -/

theorem prefix_append_cons {α : Type} [DecidableEq α] (c : α) (p l1 l2 : List α)
    (hc : c ∉ p) : p <+: l1 ++ c :: l2 ↔ p <+: l1 := by
  induction l1 generalizing p with
  | nil =>
    rw [List.nil_append]
    constructor
    · intro h
      cases p with
      | nil => exact List.nil_prefix
      | cons x xs =>
        rcases List.cons_prefix_cons.mp h with ⟨rfl, _⟩
        exact absurd (List.mem_cons_self x xs) (by exact hc)
    · intro h
      rw [List.prefix_nil.mp h]
      exact List.nil_prefix
  | cons a l1 ih =>
    cases p with
    | nil => simp
    | cons x xs =>
      rw [List.cons_append, List.cons_prefix_cons, List.cons_prefix_cons,
        ih xs (fun hx => hc (List.mem_cons_of_mem x hx))]

theorem suffix_append_cons {α : Type} [DecidableEq α] (c : α) (p l1 l2 : List α)
    (hc : c ∉ p) : p <:+ l1 ++ c :: l2 ↔ p <:+ l2 := by
  induction l1 with
  | nil =>
    rw [List.nil_append, List.suffix_cons_iff]
    constructor
    · rintro (rfl | h)
      · exact absurd (List.mem_cons_self c l2) hc
      · exact h
    · exact Or.inr
  | cons a l1 ih =>
    rw [List.cons_append, List.suffix_cons_iff, ih]
    constructor
    · rintro (rfl | h)
      · exact absurd (by simp : c ∈ a :: (l1 ++ c :: l2)) hc
      · exact h
    · exact Or.inr

theorem infix_append_cons {α : Type} [DecidableEq α] (c : α) (p l1 l2 : List α)
    (hc : c ∉ p) : p <:+: l1 ++ c :: l2 ↔ p <:+: l1 ∨ p <:+: l2 := by
  induction l1 generalizing p with
  | nil =>
    rw [List.nil_append, List.infix_cons_iff, List.infix_nil]
    constructor
    · rintro (h | h)
      · cases p with
        | nil => exact Or.inl rfl
        | cons x xs =>
          rcases List.cons_prefix_cons.mp h with ⟨rfl, _⟩
          exact absurd (List.mem_cons_self x xs) hc
      · exact Or.inr h
    · rintro (h | h)
      · subst h
        exact Or.inl List.nil_prefix
      · exact Or.inr h
  | cons a l1 ih =>
    rw [List.cons_append, List.infix_cons_iff, ih p hc, List.infix_cons_iff]
    constructor
    · rintro (h | h | h)
      · exact Or.inl (Or.inl ((prefix_append_cons c p (a :: l1) l2 hc).mp h))
      · exact Or.inl (Or.inr h)
      · exact Or.inr h
    · rintro ((h | h) | h)
      · exact Or.inl ((prefix_append_cons c p (a :: l1) l2 hc).mpr h)
      · exact Or.inr (Or.inl h)
      · exact Or.inr (Or.inr h)

/-- Cancellation across a separator element absent from both left parts. -/
theorem append_cons_inj_left {α : Type} [DecidableEq α] (c : α) (a b s t : List α)
    (hca : c ∉ a) (hcb : c ∉ b) (h : a ++ c :: s = b ++ c :: t) : a = b := by
  induction a generalizing b with
  | nil =>
    cases b with
    | nil => rfl
    | cons y b' =>
      rw [List.nil_append, List.cons_append, List.cons_eq_cons] at h
      exact absurd (h.1 ▸ List.mem_cons_self y b') hcb
  | cons x a' ih =>
    cases b with
    | nil =>
      rw [List.nil_append, List.cons_append, List.cons_eq_cons] at h
      exact absurd (h.1 ▸ List.mem_cons_self x a') hca
    | cons y b' =>
      rw [List.cons_append, List.cons_append, List.cons_eq_cons] at h
      rw [h.1, ih b' (fun hx => hca (List.mem_cons_of_mem x hx))
        (fun hx => hcb (List.mem_cons_of_mem y hx)) h.2]

/-! ## Claim C8: applyNs structure lemmas -/

theorem applyNsList_eq_map (u : Str) (l : List XNode) :
    applyNsList u l = l.map (applyNs u) := by
  induction l with
  | nil => rfl
  | cons c cs ih => rw [applyNsList, ih, List.map_cons]

theorem applyNs_children (u : Str) (x : XNode) :
    (applyNs u x).children = (x.children).map (applyNs u) := by
  cases x
  rw [applyNs, XNode.children, XNode.children, applyNsList_eq_map]

theorem applyNs_attrs (u : Str) (x : XNode) : (applyNs u x).attrs = x.attrs := by
  cases x
  rfl

theorem applyNs_text (u : Str) (x : XNode) : (applyNs u x).text = x.text := by
  cases x
  rfl

theorem applyNs_tail (u : Str) (x : XNode) : (applyNs u x).tail = x.tail := by
  cases x
  rfl

theorem applyNs_name (u : Str) (x : XNode) : (applyNs u x).name = x.name := by
  cases x
  rfl

theorem tagStr_applyNs (u : Str) (x : XNode) :
    tagStr (applyNs u x) = (lbrace :: u) ++ rbrace :: x.name := by
  cases x
  rfl

theorem attrGet_applyNs (u : Str) (x : XNode) (k : Str) :
    attrGet (applyNs u x) k = attrGet x k := by
  rw [attrGet, attrGet, applyNs_attrs]

theorem attrGetD_applyNs (u : Str) (x : XNode) (k d : Str) :
    attrGetD (applyNs u x) k d = attrGetD x k d := by
  rw [attrGetD, attrGetD, attrGet_applyNs]

theorem tagStr_plain {x : XNode} (hx : plainNode x = true) : tagStr x = x.name := by
  cases x with
  | node ns n a t ch tl =>
    simp only [plainNode, Bool.and_eq_true] at hx
    rcases hx with ⟨⟨hns, _⟩, _⟩
    rw [Option.isNone_iff_eq_none] at hns
    rw [tagStr, XNode.ns, hns, XNode.name]

theorem plain_children {x : XNode} (hx : plainNode x = true) :
    plainList x.children = true := by
  cases x with
  | node ns n a t ch tl =>
    simp only [plainNode, Bool.and_eq_true] at hx
    exact hx.2

theorem plainList_mem {l : List XNode} (hl : plainList l = true) :
    ∀ c ∈ l, plainNode c = true := by
  induction l with
  | nil => intro c hc; cases hc
  | cons a l ih =>
    simp only [plainList, Bool.and_eq_true] at hl
    intro c hc
    rcases List.mem_cons.mp hc with rfl | hc
    · exact hl.1
    · exact ih hl.2 c hc

mutual
theorem descendants_applyNs (u : Str) (x : XNode) :
    descendants (applyNs u x) = (descendants x).map (applyNs u) := by
  cases x with
  | node ns n a t ch tl =>
    rw [applyNs, descendants, descendants, descendantsList_applyNs u ch]

theorem descendantsList_applyNs (u : Str) (l : List XNode) :
    descendantsList (applyNsList u l) = (descendantsList l).map (applyNs u) := by
  cases l with
  | nil => rfl
  | cons c cs =>
    rw [applyNsList, descendantsList, descendantsList, List.map_cons, List.map_append,
      descendants_applyNs u c, descendantsList_applyNs u cs]
end

mutual
theorem itertext_applyNs (u : Str) (x : XNode) : itertext (applyNs u x) = itertext x := by
  cases x with
  | node ns n a t ch tl =>
    rw [applyNs, itertext, itertext, itertextList_applyNs u ch]

theorem itertextList_applyNs (u : Str) (l : List XNode) :
    itertextList (applyNsList u l) = itertextList l := by
  cases l with
  | nil => rfl
  | cons c cs =>
    rw [applyNsList, itertextList, itertextList, itertext_applyNs u c,
      itertextList_applyNs u cs, applyNs_tail]
end

mutual
theorem plain_descendants {x : XNode} (hx : plainNode x = true) :
    ∀ c ∈ descendants x, plainNode c = true := by
  cases x with
  | node ns n a t ch tl =>
    rw [descendants]
    exact plainList_descendants (plain_children hx)

theorem plainList_descendants {l : List XNode} (hl : plainList l = true) :
    ∀ c ∈ descendantsList l, plainNode c = true := by
  cases l with
  | nil =>
    intro c hc
    cases hc
  | cons a as =>
    intro c hc
    rw [plainList, Bool.and_eq_true] at hl
    rw [descendantsList] at hc
    rcases List.mem_cons.mp hc with rfl | hc
    · exact hl.1
    · rcases List.mem_append.mp hc with hc | hc
      · exact plain_descendants hl.1 c hc
      · exact plainList_descendants hl.2 c hc
end

/-- `extract_text` is unaffected by requalifying the element. -/
theorem extract_text_applyNs (u : Str) (s : Option XNode) :
    extract_text (s.map (applyNs u)) = extract_text s := by
  cases s with
  | none => rfl
  | some e => exact congrArg trimStr (itertext_applyNs u e)

/-- `targetState` is unaffected by requalifying the element. -/
theorem targetState_applyNs (u : Str) (s : Option XNode) :
    targetState (s.map (applyNs u)) = targetState s := by
  cases s with
  | none => rfl
  | some e => exact attrGetD_applyNs u e _ _

theorem find?_map_congr {A B : Type} (f : A → B) (p : B → Bool) (q : A → Bool)
    (l : List A) (h : ∀ a ∈ l, p (f a) = q a) :
    (l.map f).find? p = (l.find? q).map f := by
  induction l with
  | nil => rfl
  | cons a l ih =>
    rw [List.map_cons, List.find?_cons, List.find?_cons,
      h a (List.mem_cons_self a l)]
    cases hq : q a with
    | true => rfl
    | false => exact ih (fun a' ha' => h a' (List.mem_cons_of_mem a ha'))

theorem filter_map_congr {A B : Type} (f : A → B) (p : B → Bool) (q : A → Bool)
    (l : List A) (h : ∀ a ∈ l, p (f a) = q a) :
    (l.map f).filter p = (l.filter q).map f := by
  induction l with
  | nil => rfl
  | cons a l ih =>
    rw [List.map_cons, List.filter_cons, List.filter_cons,
      h a (List.mem_cons_self a l)]
    have ih' := ih (fun a' ha' => h a' (List.mem_cons_of_mem a ha'))
    cases hq : q a with
    | true => rw [if_pos rfl, if_pos rfl, List.map_cons, ih']
    | false => rw [if_neg (by simp), if_neg (by simp), ih']

/-- The namespaced tag predicate on the requalified node agrees with the
plain tag predicate on the original plain node. -/
theorem tagIs_applyNs (u uri t : Str) {c : XNode} (hc : plainNode c = true) :
    tagIs true u t (applyNs u c) = tagIs false uri t c := by
  rw [tagIs, tagIs, if_pos rfl, if_neg Bool.false_ne_true, tagStr_applyNs,
    tagStr_plain hc]
  rw [decide_eq_decide]
  constructor
  · intro he
    have h2 : (lbrace :: u) ++ rbrace :: c.name = (lbrace :: u) ++ rbrace :: t := he
    have h3 := List.append_cancel_left h2
    exact (List.cons_eq_cons.mp h3).2
  · intro he
    rw [he]
    rfl

theorem foldl_congr_mem {A B : Type} (f g : B → A → B) (l : List A) (init : B)
    (h : ∀ b : B, ∀ a ∈ l, f b a = g b a) : l.foldl f init = l.foldl g init := by
  induction l generalizing init with
  | nil => rfl
  | cons a l ih =>
    rw [List.foldl_cons, List.foldl_cons, h init a (List.mem_cons_self a l)]
    exact ih _ (fun b a' ha' => h b a' (List.mem_cons_of_mem a ha'))

theorem any_map_congr {A B : Type} (f : A → B) (p : B → Bool) (q : A → Bool)
    (l : List A) (h : ∀ a ∈ l, p (f a) = q a) : (l.map f).any p = l.any q := by
  induction l with
  | nil => rfl
  | cons a l ih =>
    rw [List.map_cons, List.any_cons, List.any_cons, h a (List.mem_cons_self a l),
      ih (fun a' ha' => h a' (List.mem_cons_of_mem a ha'))]

theorem findallDesc_applyNs (u uri t : Str) {x : XNode} (hx : plainNode x = true) :
    findallDesc (tagIs true u t) (applyNs u x) =
      (findallDesc (tagIs false uri t) x).map (applyNs u) := by
  rw [findallDesc, findallDesc, descendants_applyNs]
  exact filter_map_congr (applyNs u) (tagIs true u t) (tagIs false uri t) (descendants x)
    (fun c hc => tagIs_applyNs u uri t (plain_descendants hx c hc))

theorem findChild_applyNs (u uri t : Str) {x : XNode} (hx : plainNode x = true) :
    findChild (tagIs true u t) (applyNs u x) =
      (findChild (tagIs false uri t) x).map (applyNs u) := by
  rw [findChild, findChild, applyNs_children]
  exact find?_map_congr (applyNs u) (tagIs true u t) (tagIs false uri t) x.children
    (fun c hc => tagIs_applyNs u uri t (plainList_mem (plain_children hx) c hc))

theorem findSource_applyNs (u uri : Str) {tu : XNode} (htu : plainNode tu = true) :
    findSource true u (applyNs u tu) = (findSource false uri tu).map (applyNs u) :=
  findChild_applyNs u uri ("source".data) htu

theorem findTarget_applyNs (u uri : Str) {tu : XNode} (htu : plainNode tu = true) :
    findTarget true u (applyNs u tu) = (findTarget false uri tu).map (applyNs u) :=
  findChild_applyNs u uri ("target".data) htu

theorem updateUnit_applyNs (u uri : Str) (gd : GroupData) {tu : XNode}
    (htu : plainNode tu = true) :
    updateUnit true u gd (applyNs u tu) = updateUnit false uri gd tu := by
  simp only [updateUnit, attrGetD_applyNs, findSource_applyNs u uri htu,
    findTarget_applyNs u uri htu, extract_text_applyNs, targetState_applyNs]

theorem effectiveUnitsOfChild_applyNs (u uri : Str) {c : XNode} (hc : plainNode c = true) :
    effectiveUnitsOfChild true u (applyNs u c) =
      (effectiveUnitsOfChild false uri c).map (applyNs u) := by
  have hg : ("group".data <:+ tagStr (applyNs u c)) ↔ "group".data <:+ tagStr c := by
    rw [tagStr_applyNs, tagStr_plain hc]
    exact suffix_append_cons rbrace ("group".data) (lbrace :: u) c.name (by decide)
  have ht : ("trans-unit".data <:+ tagStr (applyNs u c)) ↔
      "trans-unit".data <:+ tagStr c := by
    rw [tagStr_applyNs, tagStr_plain hc]
    exact suffix_append_cons rbrace ("trans-unit".data) (lbrace :: u) c.name (by decide)
  simp only [effectiveUnitsOfChild, attrGetD_applyNs]
  by_cases h1 : "group".data <:+ tagStr c ∧ "_SubPos".data <:+: attrGetD c ("id".data) []
  · rw [if_pos ⟨hg.mpr h1.1, h1.2⟩, if_pos h1]
    rfl
  · rw [if_neg (fun hh => h1 ⟨hg.mp hh.1, hh.2⟩), if_neg h1]
    by_cases h2 : "trans-unit".data <:+ tagStr c
    · rw [if_pos (ht.mpr h2), if_pos h2]
      rfl
    · rw [if_neg (fun hh => h2 (ht.mp hh)), if_neg h2]
      by_cases h3 : "group".data <:+ tagStr c
      · rw [if_pos (hg.mpr h3), if_pos h3]
        exact findallDesc_applyNs u uri ("trans-unit".data) hc
      · rw [if_neg (fun hh => h3 (hg.mp hh)), if_neg h3]
        rfl

theorem collectTransUnits_applyNs (u uri : Str) {children : List XNode}
    (hch : plainList children = true) :
    collectTransUnits true u (applyNsList u children) =
      (collectTransUnits false uri children).map (applyNs u) := by
  induction children with
  | nil => rfl
  | cons c cs ih =>
    rw [plainList, Bool.and_eq_true] at hch
    simp only [collectTransUnits, applyNsList, List.flatMap_cons, List.map_append]
    rw [effectiveUnitsOfChild_applyNs u uri hch.1]
    congr 1
    exact ih hch.2

theorem collectTransUnits_plain (uri : Str) {children : List XNode}
    (hch : plainList children = true) :
    ∀ tu ∈ collectTransUnits false uri children, plainNode tu = true := by
  intro tu htu
  rcases List.mem_flatMap.mp htu with ⟨c, hc, htu⟩
  have hcp := plainList_mem hch c hc
  simp only [effectiveUnitsOfChild] at htu
  by_cases h1 : "group".data <:+ tagStr c ∧ "_SubPos".data <:+: attrGetD c ("id".data) []
  · rw [if_pos h1] at htu
    cases htu
  · rw [if_neg h1] at htu
    by_cases h2 : "trans-unit".data <:+ tagStr c
    · rw [if_pos h2] at htu
      rcases List.mem_singleton.mp htu with rfl
      exact hcp
    · rw [if_neg h2] at htu
      by_cases h3 : "group".data <:+ tagStr c
      · rw [if_pos h3] at htu
        exact plain_descendants hcp tu (List.mem_filter.mp htu).1
      · rw [if_neg h3] at htu
        cases htu

theorem foldl_updateUnit_applyNs (u uri : Str) (tus : List XNode) (gd : GroupData)
    (htus : ∀ tu ∈ tus, plainNode tu = true) :
    (tus.map (applyNs u)).foldl (updateUnit true u) gd =
      tus.foldl (updateUnit false uri) gd := by
  induction tus generalizing gd with
  | nil => rfl
  | cons tu tus ih =>
    rw [List.map_cons, List.foldl_cons, List.foldl_cons,
      updateUnit_applyNs u uri gd (htus tu (List.mem_cons_self tu tus))]
    exact ih _ (fun tu' h' => htus tu' (List.mem_cons_of_mem tu h'))

theorem resolveGroup_applyNs (u uri : Str) {g : XNode} (hg : plainNode g = true) :
    resolveGroup true u (applyNs u g) = resolveGroup false uri g := by
  rw [resolveGroup, resolveGroup, applyNs_children, ← applyNsList_eq_map,
    collectTransUnits_applyNs u uri (plain_children hg)]
  exact foldl_updateUnit_applyNs u uri _ emptyGroupData
    (collectTransUnits_plain uri (plain_children hg))

theorem usesNamespace_applyNs (u : Str) (x : XNode) : usesNamespace (applyNs u x) = true := by
  cases x
  rfl

theorem usesNamespace_plain {x : XNode} (hx : plainNode x = true) :
    usesNamespace x = false := by
  cases x with
  | node ns n a t ch tl =>
    simp only [plainNode, Bool.and_eq_true] at hx
    rcases hx with ⟨⟨hns, hn⟩, _⟩
    rw [Option.isNone_iff_eq_none] at hns
    have ht : tagStr (XNode.node ns n a t ch tl) = n := by
      rw [tagStr, XNode.ns, hns, XNode.name]
    rw [usesNamespace, ht]
    cases n with
    | nil => rfl
    | cons c rest => simpa using hn

theorem takeWhile_not_rbrace (u s : Str) (hb : rbrace ∉ u) :
    (u ++ rbrace :: s).takeWhile (fun c => !(c == rbrace)) = u := by
  induction u with
  | nil => simp [List.takeWhile_cons]
  | cons a u ih =>
    have ha : (a == rbrace) = false := by
      simp only [beq_eq_false_iff_ne, ne_eq]
      intro he
      exact hb (he ▸ List.mem_cons_self a u)
    rw [List.cons_append, List.takeWhile_cons, ha]
    simpa using ih (fun hx => hb (List.mem_cons_of_mem a hx))

theorem nsUriOf_applyNs (u : Str) (x : XNode) (hbrace : rbrace ∉ u) :
    nsUriOf (applyNs u x) = u := by
  rw [nsUriOf, tagStr_applyNs]
  exact takeWhile_not_rbrace u x.name hbrace

theorem hasGuidChild_applyNs (u : Str) {g : XNode} (hg : plainNode g = true)
    (hguid : ¬ ("guid".data <:+: u)) :
    hasGuidChild (applyNs u g) = hasGuidChild g := by
  rw [hasGuidChild, hasGuidChild, applyNs_children]
  apply any_map_congr
  intro c hc
  have hcp := plainList_mem (plain_children hg) c hc
  rw [decide_eq_decide, tagStr_applyNs, tagStr_plain hcp]
  rw [infix_append_cons rbrace ("guid".data) (lbrace :: u) c.name (by decide)]
  constructor
  · rintro (h | h)
    · exfalso
      rcases (infix_append_cons lbrace ("guid".data) [] u (by decide)).mp h with h' | h'
      · exact absurd (List.infix_nil.mp h') (by decide)
      · exact hguid h'
    · exact h
  · exact Or.inr

theorem targetGroupsOf_applyNs (u : Str) {root : XNode} (hroot : plainNode root = true)
    (hbrace : rbrace ∉ u) (hguid : ¬ ("guid".data <:+: u)) :
    targetGroupsOf (applyNs u root) = (targetGroupsOf root).map (applyNs u) := by
  rw [targetGroupsOf, targetGroupsOf, usesNamespace_applyNs, nsUriOf_applyNs u root hbrace,
    usesNamespace_plain hroot, findallDesc_applyNs u (nsUriOf root) ("group".data) hroot]
  exact filter_map_congr (applyNs u) hasGuidChild hasGuidChild _
    (fun g hg => hasGuidChild_applyNs u
      (plain_descendants hroot g (List.mem_filter.mp hg).1) hguid)

/-- `parse_xlf_file` produces the same snapshot for the uniformly
requalified document as for the plain one. -/
theorem parse_xlf_file_applyNs {root : XNode} (u : Str) (hroot : plainNode root = true)
    (hbrace : rbrace ∉ u) (hguid : ¬ ("guid".data <:+: u)) :
    parse_xlf_file (applyNs u root) = parse_xlf_file root := by
  rw [parse_xlf_file, parse_xlf_file, usesNamespace_applyNs, nsUriOf_applyNs u root hbrace,
    usesNamespace_plain hroot, targetGroupsOf_applyNs u hroot hbrace hguid, List.foldl_map]
  apply foldl_congr_mem
  intro acc g hgmem
  have hgp : plainNode g = true :=
    plain_descendants hroot g (List.mem_filter.mp (List.mem_filter.mp hgmem).1).1
  rw [attrGetD_applyNs, resolveGroup_applyNs u (nsUriOf root) hgp]

theorem unitIdOf_applyNs (u : Str) (x : XNode) : unitIdOf (applyNs u x) = unitIdOf x := by
  rw [unitIdOf, unitIdOf, attrGetD_applyNs, attrGetD_applyNs]

theorem abbrSourceFor_applyNs (u uri : Str) (all : List XNode)
    (hall : ∀ c ∈ all, plainNode c = true) (aid : Str) :
    abbrSourceFor true u (all.map (applyNs u)) aid = abbrSourceFor false uri all aid := by
  rw [abbrSourceFor, abbrSourceFor,
    find?_map_congr (applyNs u) (fun tu => decide (unitIdOf tu = aid))
      (fun tu => decide (unitIdOf tu = aid)) all
      (fun a _ => by simp only [unitIdOf_applyNs])]
  cases h : all.find? (fun tu => decide (unitIdOf tu = aid)) with
  | none => rfl
  | some tu =>
    have htu : plainNode tu = true := hall tu (List.mem_of_find?_eq_some h)
    show extract_text (findSource true u (applyNs u tu)) =
      extract_text (findSource false uri tu)
    rw [findSource_applyNs u uri htu, extract_text_applyNs]

theorem mkCLResult_applyNs (u uri : Str) (all : List XNode)
    (hall : ∀ c ∈ all, plainNode c = true) {tu : XNode} (htu : plainNode tu = true) :
    mkCLResult true u (all.map (applyNs u)) (applyNs u tu) = mkCLResult false uri all tu := by
  simp only [mkCLResult, unitIdOf_applyNs, findSource_applyNs u uri htu,
    findTarget_applyNs u uri htu, extract_text_applyNs, targetState_applyNs,
    abbrSourceFor_applyNs u uri all hall]

theorem clStep_applyNs (u uri : Str) (all : List XNode)
    (hall : ∀ c ∈ all, plainNode c = true) (acc : List CLResult × List CLResult)
    {tu : XNode} (htu : plainNode tu = true) :
    clStep true u (all.map (applyNs u)) acc (applyNs u tu) = clStep false uri all acc tu := by
  simp only [clStep, unitIdOf_applyNs, findSource_applyNs u uri htu,
    findTarget_applyNs u uri htu, extract_text_applyNs,
    mkCLResult_applyNs u uri all hall htu]

/-- `comma_lists` produces the same buckets for the uniformly requalified
document as for the plain one. -/
theorem comma_lists_applyNs {root : XNode} (u : Str) (hroot : plainNode root = true)
    (hbrace : rbrace ∉ u) :
    comma_lists (applyNs u root) = comma_lists root := by
  simp only [comma_lists]
  rw [usesNamespace_applyNs, nsUriOf_applyNs u root hbrace, usesNamespace_plain hroot,
    findallDesc_applyNs u (nsUriOf root) ("trans-unit".data) hroot, List.foldl_map]
  apply foldl_congr_mem
  intro acc tu htu
  exact clStep_applyNs u (nsUriOf root) _
    (fun c hc => plain_descendants hroot c (List.mem_filter.mp hc).1) acc
    (plain_descendants hroot tu (List.mem_filter.mp htu).1)

theorem plain_tag_ne_qname {c : XNode} (hc : plainNode c = true) (uri t : Str) :
    tagStr c ≠ qname uri t := by
  cases c with
  | node ns n a tx ch tl =>
    simp only [plainNode, Bool.and_eq_true] at hc
    rcases hc with ⟨⟨hns, hn⟩, _⟩
    rw [Option.isNone_iff_eq_none] at hns
    have ht : tagStr (XNode.node ns n a tx ch tl) = n := by
      rw [tagStr, XNode.ns, hns, XNode.name]
    rw [ht]
    cases n with
    | nil =>
      intro he
      exact List.cons_ne_nil _ _ he.symm
    | cons c0 rest =>
      intro he
      rw [qname, List.cons_eq_cons] at he
      have hn' : (!(c0 == lbrace)) = true := hn
      rw [he.1] at hn'
      simp at hn'

/-- On a document with no namespace declaration, the hardcoded
XLIFF-1.2-qualified search of `find_identical_translations` matches no
element at all. -/
theorem findall_xliff12_plain {root : XNode} (hroot : plainNode root = true) (t : Str) :
    findallDesc (tagIs true xliff12 t) root = [] := by
  rw [findallDesc, List.filter_eq_nil_iff]
  intro c hc
  have hcp := plain_descendants hroot c hc
  simp only [tagIs]
  rw [if_pos trivial]
  simp only [decide_eq_true_eq]
  exact plain_tag_ne_qname hcp xliff12 t

/-- Under any uniform namespace other than XLIFF 1.2 the hardcoded search
matches no element either. -/
theorem findall_xliff12_applyNs (root : XNode) (u : Str) (hbrace : rbrace ∉ u)
    (hne : u ≠ xliff12) (t : Str) :
    findallDesc (tagIs true xliff12 t) (applyNs u root) = [] := by
  rw [findallDesc, List.filter_eq_nil_iff, descendants_applyNs]
  intro c hc
  rcases List.mem_map.mp hc with ⟨c0, _, rfl⟩
  simp only [tagIs]
  rw [if_pos trivial]
  simp only [decide_eq_true_eq]
  rw [tagStr_applyNs]
  intro he
  have he' : u ++ rbrace :: c0.name = xliff12 ++ rbrace :: t :=
    (List.cons_eq_cons.mp he).2
  exact hne (append_cons_inj_left rbrace u xliff12 _ _ hbrace (by decide) he')

theorem find_identical_plain {root : XNode} (hroot : plainNode root = true) :
    find_identical_translations root = [] := by
  rw [find_identical_translations, findall_xliff12_plain hroot]
  rfl

theorem find_identical_applyNs (root : XNode) (u : Str) (hbrace : rbrace ∉ u)
    (hne : u ≠ xliff12) :
    find_identical_translations (applyNs u root) = [] := by
  rw [find_identical_translations, findall_xliff12_applyNs root u hbrace hne]
  rfl

/-- **C8 (counterexample)**: identical-translation detection is NOT
namespace-tolerant — on the XLIFF-1.2-namespaced document it finds a
record, on the same document without a namespace declaration it finds
nothing, so the two runs produce different results. -/
theorem claim_c8_counterexample :
    find_identical_translations identDocNs ≠ [] ∧
    find_identical_translations identDocPlain = [] ∧
    find_identical_translations identDocNs ≠ find_identical_translations identDocPlain := by
  refine ⟨by decide, by decide, by decide⟩

/-- **C8 (amended)**: snapshot resolution (for a namespace URI not
containing `guid` or a closing brace), diffing, and list-length mismatch
detection produce the same results for a uniformly namespaced document and
for the same document without a namespace declaration; identical-translation
detection, however, matches only the hardcoded XLIFF 1.2 namespace — under
any other uniform namespace, and on a plain document, it finds nothing. -/
theorem claim_c8_namespace_tolerance (root root2 : XNode) (u : Str)
    (ty : CompareType) (includeState : Bool)
    (hplain : plainNode root = true) (hplain2 : plainNode root2 = true)
    (hbrace : rbrace ∉ u) (hguid : ¬ ("guid".data <:+: u)) :
    parse_xlf_file (applyNs u root) = parse_xlf_file root ∧
    comma_lists (applyNs u root) = comma_lists root ∧
    compare_files ty includeState (parse_xlf_file (applyNs u root)).1
        (parse_xlf_file (applyNs u root2)).1 (parse_xlf_file (applyNs u root2)).2 =
      compare_files ty includeState (parse_xlf_file root).1 (parse_xlf_file root2).1
        (parse_xlf_file root2).2 ∧
    (u ≠ xliff12 → find_identical_translations (applyNs u root) = []) ∧
    find_identical_translations root = [] := by
  have h1 := parse_xlf_file_applyNs u hplain hbrace hguid
  have h2 := parse_xlf_file_applyNs u hplain2 hbrace hguid
  exact ⟨h1, comma_lists_applyNs u hplain hbrace, by rw [h1, h2],
    fun hne => find_identical_applyNs root u hbrace hne, find_identical_plain hplain⟩

/-- Witness for the amended C8 at a concrete plain document and namespace:
requalifying `ntParseDoc` into `urn:example` leaves its parsed snapshot and
comma-list buckets unchanged. -/
theorem claim_c8_namespace_tolerance_witness :
    parse_xlf_file (applyNs ("urn:example".data) ntParseDoc) = parse_xlf_file ntParseDoc ∧
    comma_lists (applyNs ("urn:example".data) ntParseDoc) = comma_lists ntParseDoc :=
  ⟨(claim_c8_namespace_tolerance ntParseDoc ntParseDoc ("urn:example".data)
      CompareType.name false (by decide) (by decide) (by decide) (by decide)).1,
   (claim_c8_namespace_tolerance ntParseDoc ntParseDoc ("urn:example".data)
      CompareType.name false (by decide) (by decide) (by decide) (by decide)).2.1⟩

end SemDomCrowdin
